import Mathlib

/-!
# add1: a single-core three-kernel streaming pipeline (reader → compute → writer)

Shallow embedding of `src/tt-metal/add1_nondistributed_launch.cpp`.

* The three device kernels (`kReaderKernel`, `kComputeKernel`, `kWriterKernel`) become
  step functions over one shared machine state; every source statement that touches
  the circular buffers, the NoC or the destination registers is one step, and a
  program counter per kernel records the statement that runs next.  A run of the
  device is any interleaving of the three step functions.
* The circular-buffer, NoC and tile-register primitives are library calls whose code is
  not part of the repository; they are modelled from the specification of the staging
  buffer (reserve / push / wait / pop over a ring of tile-sized pages).
* Tile elements are an abstract type `α`; the SFPU lane addition and the
  reinterpretation of a 32-bit pattern as a float are parameters of the model.
* The host comparison loop of `main` is a function returning `none` when the C++
  would read `src_vec` out of bounds or would never leave the loop.
-/

namespace Add1

/-! ## Constants -/

/-- Number of values of a `uint32_t`. -/
def UINT32 : Nat := 4294967296

/-- Modelled from the spec: `tt::constants::TILE_WIDTH` is declared in the tt-metalium
headers; the spec fixes the tile geometry at 32×32 elements. -/
def TILE_WIDTH : Nat := 32

/-- Modelled from the spec: `tt::constants::TILE_HEIGHT`, see `TILE_WIDTH`. -/
def TILE_HEIGHT : Nat := 32

/-- Modelled from the spec: `sizeof(bfloat16)`; the reduced-precision element type is the
16-bit brain float, two bytes. -/
def sizeof_bfloat16 : Nat := 2

/-- Number of elements of one tile as the device sees it: a page of a circular buffer
holds `TILE_WIDTH * TILE_HEIGHT` elements. -/
def TILE_HW : Nat := TILE_WIDTH * TILE_HEIGHT

/-- Line 96: `constexpr uint32_t vectors_per_tile = 32;`. -/
def vectors_per_tile : Nat := 32

namespace main

/-- Line 127: `constexpr uint32_t n_tiles = 64;`. -/
def n_tiles : Nat := 64

/-- Lines 128-129: `elements_per_tile = TILE_WIDTH * TILE_HEIGHT` in `uint32_t`. -/
def elements_per_tile : Nat := (TILE_WIDTH * TILE_HEIGHT) % UINT32

/-- Line 130: `tile_size_bytes = sizeof(bfloat16) * elements_per_tile` in `uint32_t`. -/
def tile_size_bytes : Nat := (sizeof_bfloat16 * elements_per_tile) % UINT32

/-- Line 134: `.size = tile_size_bytes * n_tiles`, the byte size of either DRAM buffer,
as a function of the tile count (the product is formed in `uint32_t`). -/
def dram_buffer_size (n : Nat) : Nat := (tile_size_bytes * n) % UINT32

/-- Line 143: `constexpr uint32_t cb_tiles = 2;`. -/
def cb_tiles : Nat := 2

/-- Lines 145-146, 150-151: total byte size given to either `CircularBufferConfig`. -/
def cb_total_size : Nat := (cb_tiles * tile_size_bytes) % UINT32

/-- Lines 147, 152: `set_page_size(cb, tile_size_bytes)`. -/
def cb_page_size : Nat := tile_size_bytes

/-- Line 188: `src_vec(n_tiles * elements_per_tile)`, the element count of the source
vector as a function of the tile count. -/
def src_vec_size (n : Nat) : Nat := (n * elements_per_tile) % UINT32

/-- Line 203: `ReadFromBuffer` resizes `result_vec` to the byte size of the
destination buffer divided by the element size. -/
def result_vec_size (n : Nat) : Nat := dram_buffer_size n / sizeof_bfloat16

/-- Line 195: `std::bit_cast<uint32_t>(1.0f)`, the IEEE-754 pattern `0x3F800000`. -/
def scalar_bits : Nat := 1065353216

end main

/-! ## Circular buffers (staging buffers) -/

/-- Modelled from the spec: the staging buffer, a ring of `num_pages` tile-sized
slots.  `received` counts the pages the producer has pushed and `acked` the pages the
consumer has popped, so the pages `acked ≤ k < received` are the occupied ones and
page `k` lives in slot `k % num_pages`. -/
structure CircularBuffer (α : Type) where
  num_pages : Nat
  pages : Nat → Nat → α
  received : Nat
  acked : Nat

/-- Modelled from the spec: `CreateCircularBuffer` with a total size and a page size
yields an empty ring of `total_size / page_size` pages over uninitialised L1 memory. -/
def CreateCircularBuffer {α : Type} (total_size page_size : Nat) (l1 : Nat → Nat → α) :
    CircularBuffer α :=
  { num_pages := total_size / page_size, pages := l1, received := 0, acked := 0 }

/-- Number of pushed-but-not-popped pages. -/
def CircularBuffer.occupancy {α : Type} (cb : CircularBuffer α) : Int :=
  (cb.received : Int) - (cb.acked : Int)

/-- Slot `p` holds a page that has been pushed and not yet popped. -/
def CircularBuffer.occupied {α : Type} (cb : CircularBuffer α) (p : Nat) : Prop :=
  ∃ k, cb.acked ≤ k ∧ k < cb.received ∧ k % cb.num_pages = p

/-- Modelled from the spec: `cb_reserve_back(cb, n)` returns once at least `n` slots
are free; the result says whether the call can return in this state. -/
def cb_reserve_back {α : Type} (cb : CircularBuffer α) (n : Nat) : Bool :=
  decide (cb.received + n ≤ cb.acked + cb.num_pages)

/-- Modelled from the spec: `cb_push_back(cb, n)` marks `n` more pages occupied. -/
def cb_push_back {α : Type} (cb : CircularBuffer α) (n : Nat) : CircularBuffer α :=
  { cb with received := cb.received + n }

/-- Modelled from the spec: `cb_wait_front(cb, n)` returns once at least `n` slots are
occupied; the result says whether the call can return in this state. -/
def cb_wait_front {α : Type} (cb : CircularBuffer α) (n : Nat) : Bool :=
  decide (cb.acked + n ≤ cb.received)

/-- Modelled from the spec: `cb_pop_front(cb, n)` marks the `n` front pages free. -/
def cb_pop_front {α : Type} (cb : CircularBuffer α) (n : Nat) : CircularBuffer α :=
  { cb with acked := cb.acked + n }

/-- Modelled from the spec: `get_write_ptr(cb)`, the slot the producer fills next. -/
def get_write_ptr {α : Type} (cb : CircularBuffer α) : Nat :=
  cb.received % cb.num_pages

/-- Modelled from the spec: `get_read_ptr(cb)`, the slot at the front of the ring. -/
def get_read_ptr {α : Type} (cb : CircularBuffer α) : Nat :=
  cb.acked % cb.num_pages

/-- A tile-sized transfer: the first `TILE_HW` elements come from `new`. -/
def write_tile {α : Type} (old new : Nat → α) : Nat → α :=
  fun e => if e < TILE_HW then new e else old e

/-- Overwrite slot `p` of the ring with the tile `t`. -/
def CircularBuffer.store {α : Type} (cb : CircularBuffer α) (p : Nat) (t : Nat → α) :
    CircularBuffer α :=
  { cb with pages := fun q => if q = p then write_tile (cb.pages q) t else cb.pages q }

/-- Overwrite tile `id` of the DRAM buffer at `base` with the tile `t`. -/
def dram_store {α : Type} (dram : Nat → Nat → Nat → α) (base id : Nat) (t : Nat → α) :
    Nat → Nat → Nat → α :=
  fun a i => if a = base ∧ i = id then write_tile (dram a i) t else dram a i

/-! ## NoC transfers -/

/-- An asynchronous tile transfer that has been issued and not yet waited for. -/
structure NocTransfer where
  tile_id : Nat
  base_addr : Nat
  l1_page : Nat
deriving DecidableEq, Repr

/-- Modelled from the spec: `noc_async_read_tile(id, accessor, l1)` issues a read. -/
def noc_async_read_tile (id base l1 : Nat) (pending : List NocTransfer) :
    List NocTransfer :=
  pending ++ [⟨id, base, l1⟩]

/-- Modelled from the spec: `noc_async_read_barrier()` returns when every issued read
has landed in L1. -/
def noc_async_read_barrier {α : Type} (dram : Nat → Nat → Nat → α)
    (pending : List NocTransfer) (cb : CircularBuffer α) : CircularBuffer α :=
  pending.foldl (fun c t => c.store t.l1_page (dram t.base_addr t.tile_id)) cb

/-- Modelled from the spec: `noc_async_write_tile(id, accessor, l1)` issues a write. -/
def noc_async_write_tile (id base l1 : Nat) (pending : List NocTransfer) :
    List NocTransfer :=
  pending ++ [⟨id, base, l1⟩]

/-- Modelled from the spec: `noc_async_write_barrier()` returns when every issued
write has reached DRAM. -/
def noc_async_write_barrier {α : Type} (cb : CircularBuffer α)
    (pending : List NocTransfer) (dram : Nat → Nat → Nat → α) : Nat → Nat → Nat → α :=
  pending.foldl (fun d t => dram_store d t.base_addr t.tile_id (cb.pages t.l1_page)) dram

/-! ## Destination registers and the SFPU -/

/-- The parts of the compute engine the kernel text relies on: the number of elements
one `sfpi::dst_reg[v]` vector covers, the per-lane `vFloat` addition and the
reinterpretation of a 32-bit pattern as a float (`union { uint32_t u; float f; }`). -/
structure Sfpu (α : Type) where
  lanes : Nat
  vadd : α → α → α
  bit_cast : Nat → α

/-- Modelled from the spec: `copy_tile(cb, cb_offset, reg_offset)` stages the page
`cb_offset` behind the front of `cb` into destination-register tile `reg_offset`. -/
def copy_tile {α : Type} (cb : CircularBuffer α) (cb_offset reg_offset : Nat)
    (dst_reg : Nat → α) : Nat → α :=
  fun r =>
    if reg_offset * TILE_HW ≤ r ∧ r < (reg_offset + 1) * TILE_HW then
      cb.pages ((cb.acked + cb_offset) % cb.num_pages) (r - reg_offset * TILE_HW)
    else dst_reg r

/-- Modelled from the spec: `pack_tile(reg_offset, cb)` writes destination-register
tile `reg_offset` into the slot at the write pointer of `cb`. -/
def pack_tile {α : Type} (reg_offset : Nat) (dst_reg : Nat → α) (cb : CircularBuffer α) :
    CircularBuffer α :=
  cb.store (get_write_ptr cb) (fun e => dst_reg (reg_offset * TILE_HW + e))

/-- Modelled from the spec: a read of `sfpi::dst_reg[v]` (`sfpi.h` is not part of the
repository); vector `v` covers `lanes` consecutive elements of the destination
registers, lane `l` being element `v * lanes + l`. -/
def dst_reg_load {α : Type} (hw : Sfpu α) (dst_reg : Nat → α) (v : Nat) : Nat → α :=
  fun l => dst_reg (v * hw.lanes + l)

/-- Modelled from the spec: an assignment to `sfpi::dst_reg[v]` (`sfpi.h` is not part of
the repository), lane by lane. -/
def dst_reg_assign {α : Type} (hw : Sfpu α) (dst_reg : Nat → α) (v : Nat) (x : Nat → α) :
    Nat → α :=
  fun r => if v * hw.lanes ≤ r ∧ r < (v + 1) * hw.lanes then x (r - v * hw.lanes) else dst_reg r

/-- Lines 97-99: the first `k` iterations `v = 0, …, k - 1` of
`sfpi::dst_reg[v] = sfpi::dst_reg[v] + scalar`. -/
def scalar_add_loop {α : Type} (hw : Sfpu α) (scalar : α) : Nat → (Nat → α) → (Nat → α)
  | 0, d => d
  | k + 1, d =>
    let d' := scalar_add_loop hw scalar k d
    dst_reg_assign hw d' k (fun l => hw.vadd (dst_reg_load hw d' k l) scalar)

/-- Lines 91-99: the `TRISC_MATH` block, run by the math thread of the compute kernel:
reinterpret `scalar_bits` as a float, broadcast it and add it to `vectors_per_tile`
destination-register vectors. -/
def sfpu_block {α : Type} (hw : Sfpu α) (scalar_bits : Nat) (dst_reg : Nat → α) : Nat → α :=
  scalar_add_loop hw (hw.bit_cast scalar_bits) vectors_per_tile dst_reg

/-! ## Machine state -/

/-- Statements of the reader kernel. -/
inductive ReaderPc where
  | loop_head | reserve_back | get_write_ptr | read_tile | read_barrier | push_back | done
deriving DecidableEq, Repr

/-- Statements of the writer kernel. -/
inductive WriterPc where
  | loop_head | wait_front | get_read_ptr | write_tile | write_barrier | pop_front | done
deriving DecidableEq, Repr

/-- Statements of the compute kernel. -/
inductive ComputePc where
  | init_sfpu | loop_head | regs_acquire | wait_front | copy_tile | sfpu | regs_commit
  | regs_wait | reserve_back | pack_tile | pop_front | regs_release | push_back | done
deriving DecidableEq, Repr

/-- Locals of the reader kernel and its outstanding NoC reads. -/
structure ReaderState where
  pc : ReaderPc
  i : Nat
  cb_in0_addr : Nat
  noc : List NocTransfer

/-- Locals of the writer kernel and its outstanding NoC writes. -/
structure WriterState where
  pc : WriterPc
  i : Nat
  cb_out0_addr : Nat
  noc : List NocTransfer

/-- Locals of the compute kernel and the destination registers. -/
structure ComputeState (α : Type) where
  pc : ComputePc
  i : Nat
  dst_reg : Nat → α

/-- What the writer has done to the destination buffer, in the order it happened. -/
inductive WriteEvent where
  | issued (i : Nat)
  | completed (i : Nat)
deriving DecidableEq, Repr

/-- The device: DRAM (base address → tile index → element), the two circular buffers,
the three kernels, and two history variables that no kernel reads: the source tile
indices the reader has fetched and the writer's events, both oldest first. -/
structure State (α : Type) where
  dram : Nat → Nat → Nat → α
  cb_in0 : CircularBuffer α
  cb_out0 : CircularBuffer α
  reader : ReaderState
  compute : ComputeState α
  writer : WriterState
  fetched : List Nat
  trace : List WriteEvent

/-- The three kernels of the program. -/
inductive Kernel where
  | reader | compute | writer
deriving DecidableEq, Repr

/-- Runtime arguments of the three kernels, as set by `SetRuntimeArgs`. -/
structure RuntimeArgs where
  reader : List Nat
  writer : List Nat
  compute : List Nat

/-- Modelled from the spec: `get_arg_val<uint32_t>(k)`, the `k`-th runtime argument. -/
def get_arg_val (args : List Nat) (k : Nat) : Nat := args.getD k 0

/-- Lines 196-198: the three `SetRuntimeArgs` calls, as a function of the tile count, the
scalar pattern and the two buffer addresses. -/
def SetRuntimeArgs (n_tiles scalar_bits src_addr dst_addr : Nat) : RuntimeArgs :=
  { compute := [n_tiles, scalar_bits]
    reader := [src_addr, n_tiles]
    writer := [dst_addr, n_tiles] }

/-- The runtime arguments `main` binds: 64 tiles and the pattern of `1.0f`. -/
def main.runtime_args (src_addr dst_addr : Nat) : RuntimeArgs :=
  SetRuntimeArgs main.n_tiles main.scalar_bits src_addr dst_addr

/-! ## The kernels -/

/-- Lines 20-39: one step of the reader kernel; `none` when the kernel has returned or is
blocked in `cb_reserve_back`.  The increment `++i` is taken together with
`cb_push_back`, the last statement of the loop body. -/
def kReaderKernel.kernel_main {α : Type} (args : List Nat) (s : State α) : Option (State α) :=
  let in0_addr := get_arg_val args 0
  let n_tiles := get_arg_val args 1
  let r := s.reader
  match r.pc with
  | .loop_head =>
    if r.i < n_tiles then some { s with reader := { r with pc := .reserve_back } }
    else some { s with reader := { r with pc := .done } }
  | .reserve_back =>
    if cb_reserve_back s.cb_in0 1 then some { s with reader := { r with pc := .get_write_ptr } }
    else none
  | .get_write_ptr =>
    some { s with reader := { r with pc := .read_tile, cb_in0_addr := get_write_ptr s.cb_in0 } }
  | .read_tile =>
    some { s with
      reader := { r with pc := .read_barrier,
                         noc := noc_async_read_tile r.i in0_addr r.cb_in0_addr r.noc }
      fetched := s.fetched ++ [r.i] }
  | .read_barrier =>
    some { s with
      cb_in0 := noc_async_read_barrier s.dram r.noc s.cb_in0
      reader := { r with pc := .push_back, noc := [] } }
  | .push_back =>
    some { s with
      cb_in0 := cb_push_back s.cb_in0 1
      reader := { r with pc := .loop_head, i := (r.i + 1) % UINT32 } }
  | .done => none

/-- Lines 45-64: one step of the writer kernel; `none` when the kernel has returned or is
blocked in `cb_wait_front`.  The increment `++i` is taken together with `cb_pop_front`,
the last statement of the loop body. -/
def kWriterKernel.kernel_main {α : Type} (args : List Nat) (s : State α) : Option (State α) :=
  let out_addr := get_arg_val args 0
  let n_tiles := get_arg_val args 1
  let w := s.writer
  match w.pc with
  | .loop_head =>
    if w.i < n_tiles then some { s with writer := { w with pc := .wait_front } }
    else some { s with writer := { w with pc := .done } }
  | .wait_front =>
    if cb_wait_front s.cb_out0 1 then some { s with writer := { w with pc := .get_read_ptr } }
    else none
  | .get_read_ptr =>
    some { s with writer := { w with pc := .write_tile, cb_out0_addr := get_read_ptr s.cb_out0 } }
  | .write_tile =>
    some { s with
      writer := { w with pc := .write_barrier,
                         noc := noc_async_write_tile w.i out_addr w.cb_out0_addr w.noc }
      trace := s.trace ++ [WriteEvent.issued w.i] }
  | .write_barrier =>
    some { s with
      dram := noc_async_write_barrier s.cb_out0 w.noc s.dram
      writer := { w with pc := .pop_front, noc := [] }
      trace := s.trace ++ [WriteEvent.completed w.i] }
  | .pop_front =>
    some { s with
      cb_out0 := cb_pop_front s.cb_out0 1
      writer := { w with pc := .loop_head, i := (w.i + 1) % UINT32 } }
  | .done => none

/-- Lines 79-111: one step of the compute kernel; `none` when the kernel has returned or
is blocked in `cb_wait_front` / `cb_reserve_back`.  The kernel text is built once per
TRISC thread; the step function follows the program order of the text with the
`TRISC_MATH` block present, as it is for the math thread that owns the destination
registers.  `init_sfpu` configures the unpacker, the math unit and the packer, and the
four `tile_regs_*` calls hand the destination registers between the math and the pack
thread; none of them changes anything the model records, so each only advances the
program counter.  The increment `++i` is taken together with `cb_push_back`. -/
def kComputeKernel.MAIN {α : Type} (hw : Sfpu α) (args : List Nat) (s : State α) :
    Option (State α) :=
  let n_tiles := get_arg_val args 0
  let scalar_bits := get_arg_val args 1
  let c := s.compute
  match c.pc with
  | .init_sfpu => some { s with compute := { c with pc := .loop_head } }
  | .loop_head =>
    if c.i < n_tiles then some { s with compute := { c with pc := .regs_acquire } }
    else some { s with compute := { c with pc := .done } }
  | .regs_acquire => some { s with compute := { c with pc := .wait_front } }
  | .wait_front =>
    if cb_wait_front s.cb_in0 1 then some { s with compute := { c with pc := .copy_tile } }
    else none
  | .copy_tile =>
    some { s with compute := { c with pc := .sfpu, dst_reg := copy_tile s.cb_in0 0 0 c.dst_reg } }
  | .sfpu =>
    some { s with
      compute := { c with pc := .regs_commit, dst_reg := sfpu_block hw scalar_bits c.dst_reg } }
  | .regs_commit => some { s with compute := { c with pc := .regs_wait } }
  | .regs_wait => some { s with compute := { c with pc := .reserve_back } }
  | .reserve_back =>
    if cb_reserve_back s.cb_out0 1 then some { s with compute := { c with pc := .pack_tile } }
    else none
  | .pack_tile =>
    some { s with
      cb_out0 := pack_tile 0 c.dst_reg s.cb_out0
      compute := { c with pc := .pop_front } }
  | .pop_front =>
    some { s with
      cb_in0 := cb_pop_front s.cb_in0 1
      compute := { c with pc := .regs_release } }
  | .regs_release => some { s with compute := { c with pc := .push_back } }
  | .push_back =>
    some { s with
      cb_out0 := cb_push_back s.cb_out0 1
      compute := { c with pc := .loop_head, i := (c.i + 1) % UINT32 } }
  | .done => none

/-! ## Launch and runs -/

/-- Contents of the device before launch: DRAM as the host left it, and whatever L1
and the destination registers happen to hold. -/
structure Boot (α : Type) where
  dram : Nat → Nat → Nat → α
  l1_in0 : Nat → Nat → α
  l1_out0 : Nat → Nat → α
  dst_reg : Nat → α

/-- Lines 141-153 and 200: the state at `LaunchProgram`: both circular buffers created
with `cb_tiles * tile_size_bytes` bytes in pages of `tile_size_bytes`, every kernel at
its first statement. -/
def launch {α : Type} (b : Boot α) : State α :=
  { dram := b.dram
    cb_in0 := CreateCircularBuffer main.cb_total_size main.cb_page_size b.l1_in0
    cb_out0 := CreateCircularBuffer main.cb_total_size main.cb_page_size b.l1_out0
    reader := { pc := .loop_head, i := 0, cb_in0_addr := 0, noc := [] }
    compute := { pc := .init_sfpu, i := 0, dst_reg := b.dst_reg }
    writer := { pc := .loop_head, i := 0, cb_out0_addr := 0, noc := [] }
    fetched := []
    trace := [] }

/-- One step of kernel `k`. -/
def step {α : Type} (hw : Sfpu α) (args : RuntimeArgs) (k : Kernel) (s : State α) :
    Option (State α) :=
  match k with
  | .reader => kReaderKernel.kernel_main args.reader s
  | .compute => kComputeKernel.MAIN hw args.compute s
  | .writer => kWriterKernel.kernel_main args.writer s

/-- Run the kernels in the order given; `none` if a scheduled kernel cannot step. -/
def run {α : Type} (hw : Sfpu α) (args : RuntimeArgs) : List Kernel → State α → Option (State α)
  | [], s => some s
  | k :: ks, s => (step hw args k s).bind (run hw args ks)

/-- States the device can be in after launch, under any interleaving of the kernels. -/
inductive Reachable {α : Type} (hw : Sfpu α) (args : RuntimeArgs) (b : Boot α) :
    State α → Prop where
  | launch : Reachable hw args b (launch b)
  | step {s s' : State α} (k : Kernel) :
      Reachable hw args b s → step hw args k s = some s' → Reachable hw args b s'

/-- All three kernels have returned. -/
def State.all_done {α : Type} (s : State α) : Prop :=
  s.reader.pc = .done ∧ s.compute.pc = .done ∧ s.writer.pc = .done

/-- Kernel `k` can take a step. -/
def State.enabled {α : Type} (hw : Sfpu α) (args : RuntimeArgs) (s : State α) (k : Kernel) :
    Prop :=
  (step hw args k s).isSome = true

/-- The reader is inside its loop body: 1 from `cb_reserve_back` to `cb_push_back`. -/
def ReaderPc.busy : ReaderPc → Nat
  | .loop_head => 0 | .done => 0 | _ => 1

/-- The reader holds a reserved slot of `c_0`: 1 after `cb_reserve_back` has returned. -/
def ReaderPc.holds : ReaderPc → Nat
  | .get_write_ptr => 1 | .read_tile => 1 | .read_barrier => 1 | .push_back => 1 | _ => 0

/-- The reader's local `cb_in0_addr` has been assigned in this iteration. -/
def ReaderPc.has_ptr : ReaderPc → Bool
  | .read_tile => true | .read_barrier => true | .push_back => true | _ => false

/-- The writer is inside its loop body. -/
def WriterPc.busy : WriterPc → Nat
  | .loop_head => 0 | .done => 0 | _ => 1

/-- The writer owns the front page of `c_16`: 1 after `cb_wait_front` has returned. -/
def WriterPc.front : WriterPc → Nat
  | .get_read_ptr => 1 | .write_tile => 1 | .write_barrier => 1 | .pop_front => 1 | _ => 0

/-- The writer's local `cb_out0_addr` has been assigned in this iteration. -/
def WriterPc.has_ptr : WriterPc → Bool
  | .write_tile => true | .write_barrier => true | .pop_front => true | _ => false

/-- The compute kernel is inside its loop body. -/
def ComputePc.busy : ComputePc → Nat
  | .init_sfpu => 0 | .loop_head => 0 | .done => 0 | _ => 1

/-- The compute kernel owns the front page of `c_0`: 1 from the return of
`cb_wait_front` up to `cb_pop_front`. -/
def ComputePc.front : ComputePc → Nat
  | .copy_tile => 1 | .sfpu => 1 | .regs_commit => 1 | .regs_wait => 1 | .reserve_back => 1
  | .pack_tile => 1 | .pop_front => 1 | _ => 0

/-- The compute kernel has popped `c_0` in this iteration. -/
def ComputePc.popped : ComputePc → Nat
  | .regs_release => 1 | .push_back => 1 | _ => 0

/-- The compute kernel holds a reserved slot of `c_16`. -/
def ComputePc.holds : ComputePc → Nat
  | .pack_tile => 1 | .pop_front => 1 | .regs_release => 1 | .push_back => 1 | _ => 0

/-- The NoC transfers a kernel has issued and not yet waited for. -/
def outstanding (waiting : Bool) (t : NocTransfer) : List NocTransfer :=
  if waiting then [t] else []

/-- Control invariant: how the loop counters, the program counters and the push / pop
counters of the two circular buffers are tied together when all three kernels are
bound to `N` tiles, the reader to the buffer at `src` and the writer to the one at
`dst`. -/
structure Ctl {α : Type} (N src dst : Nat) (s : State α) : Prop where
  np_in : s.cb_in0.num_pages = 2
  np_out : s.cb_out0.num_pages = 2
  r_i : s.reader.i + s.reader.pc.busy ≤ N
  r_done : s.reader.pc = .done → s.reader.i = N
  in_recv : s.cb_in0.received = s.reader.i
  in_ack : s.cb_in0.acked = s.compute.i + s.compute.pc.popped
  r_res : s.cb_in0.received + s.reader.pc.holds ≤ s.cb_in0.acked + 2
  r_ptr : s.reader.pc.has_ptr = true → s.reader.cb_in0_addr = s.reader.i % 2
  r_noc : s.reader.noc =
    outstanding (decide (s.reader.pc = .read_barrier)) ⟨s.reader.i, src, s.reader.cb_in0_addr⟩
  c_i : s.compute.i + s.compute.pc.busy ≤ N
  c_done : s.compute.pc = .done → s.compute.i = N
  c_wait : s.cb_in0.acked + s.compute.pc.front ≤ s.cb_in0.received
  out_recv : s.cb_out0.received = s.compute.i
  out_ack : s.cb_out0.acked = s.writer.i
  c_res : s.cb_out0.received + s.compute.pc.holds ≤ s.cb_out0.acked + 2
  w_i : s.writer.i + s.writer.pc.busy ≤ N
  w_done : s.writer.pc = .done → s.writer.i = N
  w_wait : s.cb_out0.acked + s.writer.pc.front ≤ s.cb_out0.received
  w_ptr : s.writer.pc.has_ptr = true → s.writer.cb_out0_addr = s.writer.i % 2
  w_noc : s.writer.noc =
    outstanding (decide (s.writer.pc = .write_barrier)) ⟨s.writer.i, dst, s.writer.cb_out0_addr⟩


/-- What the `TRISC_MATH` block leaves in destination-register element `e` when it held
`x`: the loop covers the elements below `vectors_per_tile * lanes`. -/
def sfpu_result {α : Type} (hw : Sfpu α) (scalar_bits : Nat) (x : α) (e : Nat) : α :=
  if e < vectors_per_tile * hw.lanes then hw.vadd x (hw.bit_cast scalar_bits) else x

/-- The destination registers hold the result of the `TRISC_MATH` block. -/
def ComputePc.summed : ComputePc → Bool
  | .regs_commit => true | .regs_wait => true | .reserve_back => true | .pack_tile => true
  | _ => false

/-- The result tile of this iteration sits in the reserved slot of `c_16`. -/
def ComputePc.packed : ComputePc → Bool
  | .pop_front => true | .regs_release => true | .push_back => true | _ => false

/-- The writer's write of this iteration has reached DRAM. -/
def WriterPc.written : WriterPc → Nat
  | .pop_front => 1 | _ => 0

/-- The reader has issued the read of this iteration. -/
def ReaderPc.fetching : ReaderPc → Nat
  | .read_barrier => 1 | .push_back => 1 | _ => 0

/-- The events of `n` complete writer iterations. -/
def writer_trace : Nat → List WriteEvent
  | 0 => []
  | n + 1 => writer_trace n ++ [WriteEvent.issued n, WriteEvent.completed n]

/-- The events of the writer's current iteration. -/
def WriterPc.events (i : Nat) : WriterPc → List WriteEvent
  | .write_barrier => [WriteEvent.issued i]
  | .pop_front => [WriteEvent.issued i, WriteEvent.completed i]
  | _ => []

/-- Data invariant: which tile every occupied slot, the destination registers and the
destination buffer hold, in terms of the source tensor `b.dram src` at launch. -/
structure Dat {α : Type} (hw : Sfpu α) (bits src dst : Nat) (b : Boot α) (s : State α) :
    Prop where
  d_src : s.dram src = b.dram src
  a_win : ∀ k, s.cb_in0.acked ≤ k → k < s.cb_in0.received → ∀ e, e < TILE_HW →
    s.cb_in0.pages (k % 2) e = b.dram src k e
  a_new : s.reader.pc = .push_back → ∀ e, e < TILE_HW →
    s.cb_in0.pages (s.reader.i % 2) e = b.dram src s.reader.i e
  c_staged : s.compute.pc = .sfpu → ∀ e, e < TILE_HW →
    s.compute.dst_reg e = b.dram src s.compute.i e
  c_summed : s.compute.pc.summed = true → ∀ e, e < TILE_HW →
    s.compute.dst_reg e = sfpu_result hw bits (b.dram src s.compute.i e) e
  b_new : s.compute.pc.packed = true → ∀ e, e < TILE_HW →
    s.cb_out0.pages (s.compute.i % 2) e = sfpu_result hw bits (b.dram src s.compute.i e) e
  b_win : ∀ k, s.cb_out0.acked ≤ k → k < s.cb_out0.received → ∀ e, e < TILE_HW →
    s.cb_out0.pages (k % 2) e = sfpu_result hw bits (b.dram src k e) e
  d_dst : ∀ k, k < s.writer.i + s.writer.pc.written → ∀ e, e < TILE_HW →
    s.dram dst k e = sfpu_result hw bits (b.dram src k e) e


/-- History invariant: the reader has fetched the source tiles `0, 1, 2, …` in this order,
and the writer's events are those of its completed iterations followed by those of the
current one. -/
structure Hist {α : Type} (s : State α) : Prop where
  h_fetched : s.fetched = List.range (s.reader.i + s.reader.pc.fetching)
  h_trace : s.trace = writer_trace s.writer.i ++ s.writer.pc.events s.writer.i

/-! ## Remaining work -/

/-- Steps the reader still takes from statement `pc` with loop counter `i`. -/
def ReaderPc.remaining (N i : Nat) : ReaderPc → Nat
  | .loop_head => 6 * (N - i) + 1
  | .reserve_back => 6 * (N - i)
  | .get_write_ptr => 6 * (N - i) - 1
  | .read_tile => 6 * (N - i) - 2
  | .read_barrier => 6 * (N - i) - 3
  | .push_back => 6 * (N - i) - 4
  | .done => 0

/-- Steps the writer still takes from statement `pc` with loop counter `i`. -/
def WriterPc.remaining (N i : Nat) : WriterPc → Nat
  | .loop_head => 6 * (N - i) + 1
  | .wait_front => 6 * (N - i)
  | .get_read_ptr => 6 * (N - i) - 1
  | .write_tile => 6 * (N - i) - 2
  | .write_barrier => 6 * (N - i) - 3
  | .pop_front => 6 * (N - i) - 4
  | .done => 0

/-- Steps the compute kernel still takes from statement `pc` with loop counter `i`. -/
def ComputePc.remaining (N i : Nat) : ComputePc → Nat
  | .init_sfpu => 12 * (N - i) + 2
  | .loop_head => 12 * (N - i) + 1
  | .regs_acquire => 12 * (N - i)
  | .wait_front => 12 * (N - i) - 1
  | .copy_tile => 12 * (N - i) - 2
  | .sfpu => 12 * (N - i) - 3
  | .regs_commit => 12 * (N - i) - 4
  | .regs_wait => 12 * (N - i) - 5
  | .reserve_back => 12 * (N - i) - 6
  | .pack_tile => 12 * (N - i) - 7
  | .pop_front => 12 * (N - i) - 8
  | .regs_release => 12 * (N - i) - 9
  | .push_back => 12 * (N - i) - 10
  | .done => 0

/-- Steps the three kernels still take before all of them have returned. -/
def State.remaining {α : Type} (N : Nat) (s : State α) : Nat :=
  s.reader.pc.remaining N s.reader.i + s.compute.pc.remaining N s.compute.i +
    s.writer.pc.remaining N s.writer.i

/-! ## Host-side verification (`main`, lines 202-228) -/

/-- The host arithmetic the comparison uses: `static_cast<float>` of a `bfloat16`, float
addition and subtraction, `std::abs`, the comparison `>`, and the constants `1.0f` and
`eps = 5e-2f`. -/
structure HostFloat (B F : Type) where
  to_float : B → F
  add : F → F → F
  sub : F → F → F
  abs : F → F
  gt : F → F → Bool
  one : F
  eps : F

/-- Line 207: `expected = static_cast<float>(src_vec[i]) + 1.0f`. -/
def HostFloat.expected {B F : Type} (fl : HostFloat B F) (x : B) : F :=
  fl.add (fl.to_float x) fl.one

/-- Line 209: `std::abs(expected - result) > eps` for a source element `x` and a
read-back element `r`. -/
def HostFloat.outside {B F : Type} (fl : HostFloat B F) (x r : B) : Bool :=
  fl.gt (fl.abs (fl.sub (fl.expected x) (fl.to_float r))) fl.eps

/-- One line `Mismatch at index {}: {} != {}` on the error stream. -/
structure Mismatch (F : Type) where
  index : Nat
  expected : F
  result : F

/-- State of the comparison loop: the flag `pass`, the lines printed so far, and (a
history variable) the indices at which `src_vec` has been read, oldest first. -/
structure Verdict (F : Type) where
  pass : Bool
  stderr : List (Mismatch F)
  visited : List Nat

/-- Lines 206-213: the comparison loop from counter value `i`.  `none` when the loop
reads `src_vec[i]` past the end of `src_vec`, or when `fuel` iterations do not reach
the exit (the `uint32_t` counter wraps before it reaches `result_vec.size()`). -/
def main.compare_loop {B F : Type} (fl : HostFloat B F) (src_vec result_vec : List B) :
    Nat → Nat → Verdict F → Option (Verdict F)
  | 0, _, _ => none
  | fuel + 1, i, v =>
    if i < result_vec.length then
      match src_vec[i]?, result_vec[i]? with
      | some x, some r =>
        let v' : Verdict F :=
          if fl.outside x r then
            { pass := false
              stderr := v.stderr ++ [⟨i, fl.expected x, fl.to_float r⟩]
              visited := v.visited ++ [i] }
          else { v with visited := v.visited ++ [i] }
        main.compare_loop fl src_vec result_vec fuel ((i + 1) % UINT32) v'
      | _, _ => none
    else some v

/-- Lines 117 and 205-213: `pass = true` followed by the whole comparison loop.  A loop
that leaves at all leaves within `result_vec.size()` iterations. -/
def main.compare {B F : Type} (fl : HostFloat B F) (src_vec result_vec : List B) :
    Option (Verdict F) :=
  main.compare_loop fl src_vec result_vec (result_vec.length + 1) 0
    { pass := true, stderr := [], visited := [] }

/-- A line on the error stream: `Mismatch at index {}: {} != {}` (line 211), or one of
the two lines the `catch` block prints, `Example failed with exception!` (line 217) and
the text of `e.what()` (line 218). -/
inductive ErrLine (F : Type) where
  | mismatch (m : Mismatch F)
  | exception_banner
  | exception_what

/-- How the process ends: `Test Passed` is printed and `main` returns 0 (lines 223, 228),
`TT_THROW("Test Failed")` (line 225), or the exception caught at line 216 is rethrown
(line 219). -/
inductive Exit where
  | test_passed
  | test_failed
  | rethrown
deriving DecidableEq, Repr

/-- What `main` has produced when it ends. -/
structure Outcome (F : Type) where
  stderr : List (ErrLine F)
  exit : Exit

/-- Lines 205-228: the comparison loop, `pass &= CloseDevice(device)`, the `catch` block
and the final report.  `close_device` is what the call of `CloseDevice` does: `some c`
when it returns `c`, `none` when it throws; it is the only call of these lines that can
throw. -/
def main.verify {B F : Type} (fl : HostFloat B F) (src_vec result_vec : List B)
    (close_device : Option Bool) : Option (Outcome F) :=
  (main.compare fl src_vec result_vec).map fun v =>
    match close_device with
    | some closed =>
      let pass := v.pass && closed
      { stderr := v.stderr.map ErrLine.mismatch
        exit := if pass then Exit.test_passed else Exit.test_failed }
    | none =>
      { stderr := v.stderr.map ErrLine.mismatch ++
          [ErrLine.exception_banner, ErrLine.exception_what]
        exit := Exit.rethrown }

/-- The line the loop prints for index `i`, if any. -/
def main.report {B F : Type} (fl : HostFloat B F) (src_vec result_vec : List B) (i : Nat) :
    Option (Mismatch F) :=
  match src_vec[i]?, result_vec[i]? with
  | some x, some r => if fl.outside x r then some ⟨i, fl.expected x, fl.to_float r⟩ else none
  | _, _ => none

/-- No compared element is outside the tolerance. -/
def main.all_within {B F : Type} (fl : HostFloat B F) (src_vec result_vec : List B) : Prop :=
  ∀ (i : Nat) (x r : B), src_vec[i]? = some x → result_vec[i]? = some r →
    fl.outside x r = false

/-- The tile index of a write that has been issued. -/
def WriteEvent.issued_index : WriteEvent → Option Nat
  | .issued i => some i
  | .completed _ => none

/-- The tile index of a write whose barrier has returned. -/
def WriteEvent.completed_index : WriteEvent → Option Nat
  | .issued _ => none
  | .completed i => some i

/-! ## Concrete instances -/

/-- A compute engine over the naturals: 32 lanes, exact addition, and the bit pattern
read as the number itself. -/
def demo_hw : Sfpu Nat :=
  { lanes := 32, vadd := fun x y => x + y, bit_cast := fun u => u }

/-- A device whose DRAM buffer at address 0 holds element `1000 * i + e` at position `e`
of tile `i`, and zeros everywhere else. -/
def demo_boot : Boot Nat :=
  { dram := fun a i e => if a = 0 then 1000 * i + e else 0
    l1_in0 := fun _ _ => 0
    l1_out0 := fun _ _ => 0
    dst_reg := fun _ => 0 }

/-- Runtime arguments for `N` tiles, scalar pattern 7, source at 0, destination at
131072. -/
def demo_args (N : Nat) : RuntimeArgs := SetRuntimeArgs N 7 0 131072

/-- The runtime arguments of `main` with the source buffer at 0 and the destination
buffer at 131072. -/
def demo_main_args : RuntimeArgs := main.runtime_args 0 131072

/-- The state a schedule leads to from launch (the launch state itself if the schedule
cannot be run). -/
def demo_state (args : RuntimeArgs) (sched : List Kernel) : State Nat :=
  (run demo_hw args sched (launch demo_boot)).getD (launch demo_boot)

/-- One tile through the whole pipeline, one kernel after the other. -/
def demo_full_schedule : List Kernel :=
  List.replicate 7 Kernel.reader ++ List.replicate 14 Kernel.compute ++
    List.replicate 7 Kernel.writer

/-- The reader's whole run for one tile, then the compute kernel up to its `TRISC_MATH`
block. -/
def demo_staged_schedule : List Kernel :=
  List.replicate 7 Kernel.reader ++ List.replicate 5 Kernel.compute

/-- The reader up to its read barrier in the first iteration. -/
def demo_reading_schedule : List Kernel := List.replicate 4 Kernel.reader

/-- The reader alone, until it waits in `cb_reserve_back` for a third slot. -/
def demo_reader_schedule : List Kernel := List.replicate 13 Kernel.reader

/-- Host arithmetic in exact hundredths: `1.0` is 100 and `eps` is 5. -/
def centi : HostFloat Int Int :=
  { to_float := fun x => x
    add := fun x y => x + y
    sub := fun x y => x - y
    abs := fun x => if x < 0 then -x else x
    gt := fun x y => decide (y < x)
    one := 100
    eps := 5 }

/-! ## Invariants and their preservation -/

theorem cb_num_pages_eq : main.cb_total_size / main.cb_page_size = 2 := by decide

theorem ctl_launch {α : Type} (N src dst : Nat) (b : Boot α) : Ctl N src dst (launch b) := by
  constructor <;>
    simp [launch, CreateCircularBuffer, cb_num_pages_eq, ReaderPc.busy, ReaderPc.holds,
      ReaderPc.has_ptr, WriterPc.busy, WriterPc.front, WriterPc.has_ptr, ComputePc.busy,
      ComputePc.front, ComputePc.popped, ComputePc.holds, outstanding]

theorem ctl_step {α : Type} {hw : Sfpu α} {N bits src dst : Nat} (hN : N < UINT32)
    {s s' : State α} {k : Kernel} (h : Ctl N src dst s)
    (hs : step hw (SetRuntimeArgs N bits src dst) k s = some s') : Ctl N src dst s' := by
  rcases s with ⟨dram, ⟨np1, pg1, rc1, ak1⟩, ⟨np2, pg2, rc2, ak2⟩, ⟨rpc, ri, raddr, rnoc⟩,
    ⟨cpc, ci, creg⟩, ⟨wpc, wi, waddr, wnoc⟩, fetched, trace⟩
  obtain ⟨h1, h2, h3, h4, h5, h6, h7, h8, h9, h10, h11, h12, h13, h14, h15, h16, h17, h18,
    h19, h20⟩ := h
  simp only [UINT32] at hN
  simp only at h1 h2 h3 h4 h5 h6 h7 h8 h9 h10 h11 h12 h13 h14 h15 h16 h17 h18 h19 h20
  subst h1 h2
  subst rc1 ak1 rc2 ak2
  rw [h9, h20] at hs
  clear h9 h20
  cases k
  · cases rpc <;>
      simp [step, kReaderKernel.kernel_main, SetRuntimeArgs, get_arg_val, cb_reserve_back,
        cb_push_back, get_write_ptr, noc_async_read_tile, noc_async_read_barrier, UINT32,
        CircularBuffer.store, ReaderPc.busy, ReaderPc.holds, ReaderPc.has_ptr,
        outstanding] at hs h3 h4 h7 h8 <;>
      first
        | (obtain ⟨hc, rfl⟩ := hs)
        | (split at hs <;> simp only [Option.some.injEq] at hs <;> subst hs)
    all_goals
      constructor <;>
      first
        | assumption
        | rfl
        | (simp [ReaderPc.busy, ReaderPc.holds, ReaderPc.has_ptr, outstanding] <;> omega)
  · cases cpc <;>
      simp [step, kComputeKernel.MAIN, SetRuntimeArgs, get_arg_val, cb_reserve_back,
        cb_wait_front, cb_pop_front, cb_push_back, get_write_ptr, pack_tile, UINT32,
        CircularBuffer.store, ComputePc.busy, ComputePc.holds, ComputePc.front,
        ComputePc.popped] at hs h7 h10 h11 h12 h15 <;>
      first
        | (obtain ⟨hc, rfl⟩ := hs)
        | (split at hs <;> simp only [Option.some.injEq] at hs <;> subst hs)
    all_goals
      constructor <;>
      first
        | assumption
        | rfl
        | (simp [ComputePc.busy, ComputePc.holds, ComputePc.front, ComputePc.popped] <;> omega)
  · cases wpc <;>
      simp [step, kWriterKernel.kernel_main, SetRuntimeArgs, get_arg_val, cb_wait_front,
        cb_pop_front, get_read_ptr, noc_async_write_tile, noc_async_write_barrier, UINT32,
        WriterPc.busy, WriterPc.front, WriterPc.has_ptr, outstanding] at hs h16 h17 h18 h19 <;>
      first
        | (obtain ⟨hc, rfl⟩ := hs)
        | (split at hs <;> simp only [Option.some.injEq] at hs <;> subst hs)
    all_goals
      constructor <;>
      first
        | assumption
        | rfl
        | (simp [WriterPc.busy, WriterPc.front, WriterPc.has_ptr, outstanding] <;> omega)

theorem scalar_add_loop_apply {α : Type} (hw : Sfpu α) (x : α) (k : Nat) (d : Nat → α)
    (e : Nat) :
    scalar_add_loop hw x k d e = if e < k * hw.lanes then hw.vadd (d e) x else d e := by
  induction k with
  | zero => simp [scalar_add_loop]
  | succ k ih =>
    have hk : (k + 1) * hw.lanes = k * hw.lanes + hw.lanes := Nat.succ_mul k hw.lanes
    simp only [scalar_add_loop, dst_reg_assign, dst_reg_load, hk]
    by_cases h1 : e < k * hw.lanes
    · have h2 : ¬ (k * hw.lanes ≤ e ∧ e < k * hw.lanes + hw.lanes) := by omega
      have h3 : e < k * hw.lanes + hw.lanes := by omega
      simp [h1, h2, h3, ih]
    · by_cases h4 : e < k * hw.lanes + hw.lanes
      · have h5 : k * hw.lanes ≤ e ∧ e < k * hw.lanes + hw.lanes := ⟨by omega, h4⟩
        have h6 : k * hw.lanes + (e - k * hw.lanes) = e := by omega
        simp [h1, h4, h5, h6, ih]
      · have h7 : ¬ (k * hw.lanes ≤ e ∧ e < k * hw.lanes + hw.lanes) := by omega
        simp [h1, h4, h7, ih]

theorem sfpu_block_apply {α : Type} (hw : Sfpu α) (bits : Nat) (d : Nat → α) (e : Nat) :
    sfpu_block hw bits d e = sfpu_result hw bits (d e) e := by
  simp [sfpu_block, sfpu_result, scalar_add_loop_apply]

theorem dat_launch {α : Type} (hw : Sfpu α) (bits src dst : Nat) (b : Boot α) :
    Dat hw bits src dst b (launch b) := by
  constructor <;>
    simp [launch, CreateCircularBuffer, ComputePc.summed, ComputePc.packed, WriterPc.written]

theorem dat_step_reader {α : Type} {hw : Sfpu α} {N bits src dst : Nat}
    {b : Boot α} {s s' : State α} (hc : Ctl N src dst s) (hd : Dat hw bits src dst b s)
    (hs : kReaderKernel.kernel_main (SetRuntimeArgs N bits src dst).reader s = some s') :
    Dat hw bits src dst b s' := by
  rcases s with ⟨dram, ⟨np1, pg1, rc1, ak1⟩, ⟨np2, pg2, rc2, ak2⟩, ⟨rpc, ri, raddr, rnoc⟩,
    ⟨cpc, ci, creg⟩, ⟨wpc, wi, waddr, wnoc⟩, fetched, trace⟩
  obtain ⟨h1, h2, h3, h4, h5, h6, h7, h8, h9, h10, h11, h12, h13, h14, h15, h16, h17, h18,
    h19, h20⟩ := hc
  obtain ⟨d1, d2, d3, d4, d5, d6, d7, d8⟩ := hd
  simp only at h1 h2 h3 h4 h5 h6 h7 h8 h9 h10 h11 h12 h13 h14 h15 h16 h17 h18 h19 h20
  simp only at d1 d2 d3 d4 d5 d6 d7 d8
  subst h1 h2
  subst rc1 ak1 rc2 ak2
  rw [h9, h20] at hs
  clear h9 h20
  cases rpc <;>
    simp [kReaderKernel.kernel_main, SetRuntimeArgs, get_arg_val, cb_reserve_back,
      cb_push_back, get_write_ptr, noc_async_read_tile, noc_async_read_barrier, UINT32,
      CircularBuffer.store, ReaderPc.busy, ReaderPc.holds, ReaderPc.has_ptr,
      outstanding] at hs h3 h4 h7 h8 d3 <;>
    first
      | (obtain ⟨hc, rfl⟩ := hs)
      | (split at hs <;> simp only [Option.some.injEq] at hs <;> subst hs)
  all_goals
    constructor <;> dsimp only <;>
    first
      | assumption
      | (simp <;> done)
      | skip
  · intro k hk1 hk2 e he
    have hne : k % 2 ≠ raddr := by omega
    simp only [hne, if_false]
    exact d2 k hk1 hk2 e he
  · intro _ e he
    simp [h8, write_tile, he, d1]
  · intro k hk1 hk2 e he
    by_cases hk : k = ri
    · subst hk
      exact d3 e he
    · exact d2 k hk1 (by omega) e he

theorem dat_step_compute {α : Type} {hw : Sfpu α} {N bits src dst : Nat}
    {b : Boot α} {s s' : State α} (hc : Ctl N src dst s) (hd : Dat hw bits src dst b s)
    (hs : kComputeKernel.MAIN hw (SetRuntimeArgs N bits src dst).compute s = some s') :
    Dat hw bits src dst b s' := by
  rcases s with ⟨dram, ⟨np1, pg1, rc1, ak1⟩, ⟨np2, pg2, rc2, ak2⟩, ⟨rpc, ri, raddr, rnoc⟩,
    ⟨cpc, ci, creg⟩, ⟨wpc, wi, waddr, wnoc⟩, fetched, trace⟩
  obtain ⟨h1, h2, h3, h4, h5, h6, h7, h8, h9, h10, h11, h12, h13, h14, h15, h16, h17, h18,
    h19, h20⟩ := hc
  obtain ⟨d1, d2, d3, d4, d5, d6, d7, d8⟩ := hd
  simp only at h1 h2 h3 h4 h5 h6 h7 h8 h9 h10 h11 h12 h13 h14 h15 h16 h17 h18 h19 h20
  simp only at d1 d2 d3 d4 d5 d6 d7 d8
  subst h1 h2
  subst rc1 ak1 rc2 ak2
  rw [h9, h20] at hs
  clear h9 h20
  cases cpc <;>
    simp [kComputeKernel.MAIN, SetRuntimeArgs, get_arg_val, cb_reserve_back,
      cb_wait_front, cb_pop_front, cb_push_back, get_write_ptr, pack_tile, UINT32,
      CircularBuffer.store, ComputePc.busy, ComputePc.holds, ComputePc.front,
      ComputePc.popped, ComputePc.summed, ComputePc.packed] at hs h7 h10 h11 h12 h15 d2 d4 d5 d6 <;>
    first
      | (obtain ⟨hc, rfl⟩ := hs)
      | (split at hs <;> simp only [Option.some.injEq] at hs <;> subst hs)
  all_goals
    constructor <;> dsimp only [ComputePc.summed, ComputePc.packed] <;>
    first
      | assumption
      | (simp [ComputePc.summed, ComputePc.packed] <;> done)
      | (intro _; assumption)
      | skip
  · intro _ e he
    simp only [copy_tile, Nat.zero_mul, Nat.zero_le, Nat.zero_add, Nat.one_mul, true_and, he,
      if_true, Nat.add_zero, Nat.sub_zero]
    exact d2 ci (Nat.le_refl ci) (by omega) e he
  · intro _ e he
    rw [sfpu_block_apply, d4 e he]
  · intro _ e he
    simp only [write_tile, he, if_true]
    exact d5 e he
  · intro k hk1 hk2 e he
    have hne : k % 2 ≠ ci % 2 := by omega
    simp only [hne, if_false]
    exact d7 k hk1 hk2 e he
  · intro k hk1 hk2 e he
    exact d2 k (by omega) hk2 e he
  · intro k hk1 hk2 e he
    by_cases hk : k = ci
    · subst hk
      exact d6 e he
    · exact d7 k hk1 (by omega) e he

theorem dat_step_writer {α : Type} {hw : Sfpu α} {N bits src dst : Nat} (hN : N < UINT32)
    (hsd : src ≠ dst)
    {b : Boot α} {s s' : State α} (hc : Ctl N src dst s) (hd : Dat hw bits src dst b s)
    (hs : kWriterKernel.kernel_main (SetRuntimeArgs N bits src dst).writer s = some s') :
    Dat hw bits src dst b s' := by
  rcases s with ⟨dram, ⟨np1, pg1, rc1, ak1⟩, ⟨np2, pg2, rc2, ak2⟩, ⟨rpc, ri, raddr, rnoc⟩,
    ⟨cpc, ci, creg⟩, ⟨wpc, wi, waddr, wnoc⟩, fetched, trace⟩
  obtain ⟨h1, h2, h3, h4, h5, h6, h7, h8, h9, h10, h11, h12, h13, h14, h15, h16, h17, h18,
    h19, h20⟩ := hc
  obtain ⟨d1, d2, d3, d4, d5, d6, d7, d8⟩ := hd
  simp only [UINT32] at hN
  simp only at h1 h2 h3 h4 h5 h6 h7 h8 h9 h10 h11 h12 h13 h14 h15 h16 h17 h18 h19 h20
  simp only at d1 d2 d3 d4 d5 d6 d7 d8
  subst h1 h2
  subst rc1 ak1 rc2 ak2
  rw [h9, h20] at hs
  clear h9 h20
  cases wpc <;>
    simp [kWriterKernel.kernel_main, SetRuntimeArgs, get_arg_val, cb_wait_front,
      cb_pop_front, get_read_ptr, noc_async_write_tile, noc_async_write_barrier, UINT32,
      WriterPc.busy, WriterPc.front, WriterPc.has_ptr, WriterPc.written,
      outstanding] at hs h16 h17 h18 h19 d8 <;>
    first
      | (obtain ⟨hc, rfl⟩ := hs)
      | (split at hs <;> simp only [Option.some.injEq] at hs <;> subst hs)
  all_goals
    constructor <;> dsimp only [WriterPc.written] <;>
    first
      | assumption
      | (simp [WriterPc.written] <;> done)
      | skip
  · funext i
    simp only [dram_store, hsd, false_and, if_false]
    rw [d1]
  · intro k hk e he
    by_cases hkw : k = wi
    · subst hkw
      simp only [dram_store, true_and, if_true, write_tile, he, h19]
      exact d7 k (Nat.le_refl k) (by omega) e he
    · simp only [dram_store, hkw, and_false, if_false]
      exact d8 k (by omega) e he
  · intro k hk1 hk2 e he
    exact d7 k (by omega) hk2 e he
  · have hm : (wi + 1) % 4294967296 = wi + 1 := Nat.mod_eq_of_lt (by omega)
    rw [hm]
    exact d8


theorem hist_launch {α : Type} (b : Boot α) : Hist (launch b) := by
  constructor <;> simp [launch, ReaderPc.fetching, writer_trace, WriterPc.events]

theorem hist_step {α : Type} {hw : Sfpu α} {N bits src dst : Nat} (hN : N < UINT32)
    {s s' : State α} {k : Kernel} (hc : Ctl N src dst s) (hh : Hist s)
    (hs : step hw (SetRuntimeArgs N bits src dst) k s = some s') : Hist s' := by
  rcases s with ⟨dram, A, B, ⟨rpc, ri, raddr, rnoc⟩, ⟨cpc, ci, creg⟩, ⟨wpc, wi, waddr, wnoc⟩,
    fetched, trace⟩
  have h3 := hc.r_i
  have h16 := hc.w_i
  obtain ⟨d9, d10⟩ := hh
  clear hc
  simp only [UINT32] at hN
  simp only at h3 h16 d9 d10
  cases k
  · cases rpc <;>
      simp [step, kReaderKernel.kernel_main, SetRuntimeArgs, get_arg_val, UINT32,
        ReaderPc.busy, ReaderPc.fetching] at hs h3 d9 <;>
      first
        | (obtain ⟨hc, rfl⟩ := hs)
        | (split at hs <;> simp only [Option.some.injEq] at hs <;> subst hs)
    all_goals
      constructor <;> dsimp only [ReaderPc.fetching] <;>
      first
        | assumption
        | skip
    · rw [d9, List.range_succ]
    · have hm : (ri + 1) % 4294967296 = ri + 1 := Nat.mod_eq_of_lt (by omega)
      rw [hm, d9]
  · cases cpc <;>
      simp [step, kComputeKernel.MAIN, SetRuntimeArgs, get_arg_val] at hs <;>
      first
        | (obtain ⟨hc, rfl⟩ := hs)
        | (split at hs <;> simp only [Option.some.injEq] at hs <;> subst hs)
    all_goals
      constructor <;> assumption
  · cases wpc <;>
      simp [step, kWriterKernel.kernel_main, SetRuntimeArgs, get_arg_val, UINT32,
        WriterPc.busy, WriterPc.events] at hs h16 d10 <;>
      first
        | (obtain ⟨hc, rfl⟩ := hs)
        | (split at hs <;> simp only [Option.some.injEq] at hs <;> subst hs)
    all_goals
      constructor <;> dsimp only [WriterPc.events] <;>
      first
        | assumption
        | (simp only [List.append_nil]; assumption)
        | skip
    · rw [d10]
    · rw [d10]; simp
    · have hm : (wi + 1) % 4294967296 = wi + 1 := Nat.mod_eq_of_lt (by omega)
      rw [hm, d10]
      simp [writer_trace]

theorem reachable_ctl {α : Type} {hw : Sfpu α} {N bits src dst : Nat} (hN : N < UINT32)
    {b : Boot α} {s : State α} (h : Reachable hw (SetRuntimeArgs N bits src dst) b s) :
    Ctl N src dst s := by
  induction h with
  | launch => exact ctl_launch N src dst b
  | step k _ hs ih => exact ctl_step hN ih hs

theorem reachable_dat {α : Type} {hw : Sfpu α} {N bits src dst : Nat} (hN : N < UINT32)
    (hsd : src ≠ dst) {b : Boot α} {s : State α}
    (h : Reachable hw (SetRuntimeArgs N bits src dst) b s) : Dat hw bits src dst b s := by
  induction h with
  | launch => exact dat_launch hw bits src dst b
  | step k hr hs ih =>
    have hc := reachable_ctl hN hr
    cases k
    · exact dat_step_reader hc ih hs
    · exact dat_step_compute hc ih hs
    · exact dat_step_writer hN hsd hc ih hs

theorem reachable_hist {α : Type} {hw : Sfpu α} {N bits src dst : Nat} (hN : N < UINT32)
    {b : Boot α} {s : State α} (h : Reachable hw (SetRuntimeArgs N bits src dst) b s) :
    Hist s := by
  induction h with
  | launch => exact hist_launch b
  | step k hr hs ih => exact hist_step hN (reachable_ctl hN hr) ih hs

theorem reachable_run_from {α : Type} {hw : Sfpu α} {args : RuntimeArgs} {b : Boot α}
    (sched : List Kernel) {s s' : State α} (hr : Reachable hw args b s)
    (h : run hw args sched s = some s') : Reachable hw args b s' := by
  induction sched generalizing s with
  | nil =>
    simp only [run, Option.some.injEq] at h
    exact h ▸ hr
  | cons k ks ih =>
    simp only [run] at h
    cases hk : step hw args k s with
    | none => simp [hk] at h
    | some t =>
      rw [hk] at h
      exact ih (Reachable.step k hr hk) h

theorem reachable_run {α : Type} {hw : Sfpu α} {args : RuntimeArgs} {b : Boot α}
    (sched : List Kernel) {s : State α} (h : run hw args sched (launch b) = some s) :
    Reachable hw args b s :=
  reachable_run_from sched Reachable.launch h

theorem reader_blocked {α : Type} {args : List Nat} {s : State α}
    (h : kReaderKernel.kernel_main args s = none) :
    s.reader.pc = .done ∨
      (s.reader.pc = .reserve_back ∧ ¬ s.cb_in0.received + 1 ≤ s.cb_in0.acked + s.cb_in0.num_pages) := by
  rcases s with ⟨dram, A, B, ⟨rpc, ri, raddr, rnoc⟩, C, W, fetched, trace⟩
  cases rpc <;> simp [kReaderKernel.kernel_main, cb_reserve_back] at h ⊢
  · split at h <;> simp at h
  · omega

theorem writer_blocked {α : Type} {args : List Nat} {s : State α}
    (h : kWriterKernel.kernel_main args s = none) :
    s.writer.pc = .done ∨
      (s.writer.pc = .wait_front ∧ ¬ s.cb_out0.acked + 1 ≤ s.cb_out0.received) := by
  rcases s with ⟨dram, A, B, R, C, ⟨wpc, wi, waddr, wnoc⟩, fetched, trace⟩
  cases wpc <;> simp [kWriterKernel.kernel_main, cb_wait_front] at h ⊢
  · split at h <;> simp at h
  · omega

theorem compute_blocked {α : Type} {hw : Sfpu α} {args : List Nat} {s : State α}
    (h : kComputeKernel.MAIN hw args s = none) :
    s.compute.pc = .done ∨
      (s.compute.pc = .wait_front ∧ ¬ s.cb_in0.acked + 1 ≤ s.cb_in0.received) ∨
      (s.compute.pc = .reserve_back ∧
        ¬ s.cb_out0.received + 1 ≤ s.cb_out0.acked + s.cb_out0.num_pages) := by
  rcases s with ⟨dram, A, B, R, ⟨cpc, ci, creg⟩, W, fetched, trace⟩
  cases cpc <;> simp [kComputeKernel.MAIN, cb_wait_front, cb_reserve_back] at h ⊢
  · split at h <;> simp at h
  · omega
  · omega

theorem ctl_progress {α : Type} (hw : Sfpu α) (args : RuntimeArgs) {N src dst : Nat}
    {s : State α} (hc : Ctl N src dst s) (hstuck : ∀ k, step hw args k s = none) :
    s.all_done := by
  have hr := reader_blocked (hstuck .reader)
  have hw' := writer_blocked (hstuck .writer)
  have hcm := compute_blocked (hstuck .compute)
  obtain ⟨h1, h2, h3, h4, h5, h6, h7, h8, h9, h10, h11, h12, h13, h14, h15, h16, h17, h18,
    h19, h20⟩ := hc
  rw [h1] at hr
  rw [h2] at hcm
  clear hstuck h8 h9 h19 h20 h1 h2
  rcases hr with hr | ⟨hr, hr'⟩ <;> rcases hw' with hw' | ⟨hw', hw''⟩ <;>
    rcases hcm with hcm | ⟨hcm, hcm'⟩ | ⟨hcm, hcm'⟩ <;>
    simp only [hr, hw', hcm, ReaderPc.busy, ReaderPc.holds, WriterPc.busy, WriterPc.front,
      ComputePc.busy, ComputePc.front, ComputePc.popped, ComputePc.holds, forall_const,
      State.all_done, and_self, reduceCtorEq, false_implies, false_and, and_false] at * <;>
    omega

theorem remaining_step {α : Type} {hw : Sfpu α} {N bits src dst : Nat} (hN : N < UINT32)
    {s s' : State α} {k : Kernel} (h : Ctl N src dst s)
    (hs : step hw (SetRuntimeArgs N bits src dst) k s = some s') :
    s'.remaining N + 1 = s.remaining N := by
  rcases s with ⟨dram, ⟨np1, pg1, rc1, ak1⟩, ⟨np2, pg2, rc2, ak2⟩, ⟨rpc, ri, raddr, rnoc⟩,
    ⟨cpc, ci, creg⟩, ⟨wpc, wi, waddr, wnoc⟩, fetched, trace⟩
  have h3 := h.r_i
  have h10 := h.c_i
  have h16 := h.w_i
  clear h
  simp only [UINT32] at hN
  simp only at h3 h10 h16
  cases k
  · cases rpc <;>
      simp [step, kReaderKernel.kernel_main, SetRuntimeArgs, get_arg_val, UINT32,
        ReaderPc.busy] at hs h3 <;>
      first
        | (obtain ⟨hc, rfl⟩ := hs)
        | (split at hs <;> simp only [Option.some.injEq] at hs <;> subst hs)
    all_goals (simp only [State.remaining, ReaderPc.remaining]; omega)
  · cases cpc <;>
      simp [step, kComputeKernel.MAIN, SetRuntimeArgs, get_arg_val, UINT32,
        ComputePc.busy] at hs h10 <;>
      first
        | (obtain ⟨hc, rfl⟩ := hs)
        | (split at hs <;> simp only [Option.some.injEq] at hs <;> subst hs)
    all_goals (simp only [State.remaining, ComputePc.remaining]; omega)
  · cases wpc <;>
      simp [step, kWriterKernel.kernel_main, SetRuntimeArgs, get_arg_val, UINT32,
        WriterPc.busy] at hs h16 <;>
      first
        | (obtain ⟨hc, rfl⟩ := hs)
        | (split at hs <;> simp only [Option.some.injEq] at hs <;> subst hs)
    all_goals (simp only [State.remaining, WriterPc.remaining]; omega)

theorem remaining_launch {α : Type} (N : Nat) (b : Boot α) :
    (launch b).remaining N = 24 * N + 4 := by
  simp only [State.remaining, launch, ReaderPc.remaining, ComputePc.remaining,
    WriterPc.remaining]
  omega

theorem run_length {α : Type} {hw : Sfpu α} {N bits src dst : Nat} (hN : N < UINT32)
    {b : Boot α} (sched : List Kernel) {s s' : State α}
    (hr : Reachable hw (SetRuntimeArgs N bits src dst) b s)
    (h : run hw (SetRuntimeArgs N bits src dst) sched s = some s') :
    sched.length + s'.remaining N = s.remaining N := by
  induction sched generalizing s with
  | nil =>
    simp only [run, Option.some.injEq] at h
    subst h
    simp
  | cons k ks ih =>
    simp only [run] at h
    cases hk : step hw (SetRuntimeArgs N bits src dst) k s with
    | none => simp [hk] at h
    | some t =>
      rw [hk] at h
      have h1 := ih (Reachable.step k hr hk) h
      have h2 := remaining_step hN (reachable_ctl hN hr) hk
      simp only [List.length_cons]
      omega

theorem exists_step {α : Type} (hw : Sfpu α) (args : RuntimeArgs) {N src dst : Nat}
    {s : State α} (hc : Ctl N src dst s) (hnd : ¬ s.all_done) :
    ∃ k s', step hw args k s = some s' := by
  by_contra hcon
  apply hnd
  apply ctl_progress hw args hc
  intro k
  cases hk : step hw args k s with
  | none => rfl
  | some t => exact absurd ⟨k, t, hk⟩ hcon

theorem exists_complete_from {α : Type} {hw : Sfpu α} {N bits src dst : Nat}
    (hN : N < UINT32) {b : Boot α} (n : Nat) :
    ∀ s : State α, Reachable hw (SetRuntimeArgs N bits src dst) b s → s.remaining N = n →
      ∃ sched s', run hw (SetRuntimeArgs N bits src dst) sched s = some s' ∧ s'.all_done := by
  induction n using Nat.strong_induction_on with
  | _ n ih =>
    intro s hr hn
    by_cases hd : s.all_done
    · exact ⟨[], s, rfl, hd⟩
    · obtain ⟨k, t, hk⟩ := exists_step hw (SetRuntimeArgs N bits src dst)
        (reachable_ctl hN hr) hd
      have hlt := remaining_step hN (reachable_ctl hN hr) hk
      obtain ⟨sched, s', hrun, hdone⟩ :=
        ih (t.remaining N) (by omega) t (Reachable.step k hr hk) rfl
      exact ⟨k :: sched, s', by simp [run, hk, hrun], hdone⟩

theorem all_done_remaining {α : Type} {N : Nat} {s : State α} (h : s.all_done) :
    s.remaining N = 0 := by
  obtain ⟨h1, h2, h3⟩ := h
  simp [State.remaining, h1, h2, h3, ReaderPc.remaining, ComputePc.remaining,
    WriterPc.remaining]

theorem remaining_zero_done {α : Type} {N src dst : Nat} {s : State α}
    (hc : Ctl N src dst s) (h : s.remaining N = 0) : s.all_done := by
  rcases s with ⟨dram, A, B, ⟨rpc, ri, raddr, rnoc⟩, ⟨cpc, ci, creg⟩, ⟨wpc, wi, waddr, wnoc⟩,
    fetched, trace⟩
  have h3 := hc.r_i
  have h10 := hc.c_i
  have h16 := hc.w_i
  clear hc
  simp only [State.remaining] at h
  simp only at h3 h10 h16
  have hr : ReaderPc.remaining N ri rpc = 0 := by omega
  have hcm : ComputePc.remaining N ci cpc = 0 := by omega
  have hwr : WriterPc.remaining N wi wpc = 0 := by omega
  clear h
  refine ⟨?_, ?_, ?_⟩
  · cases rpc <;> simp only [ReaderPc.remaining, ReaderPc.busy] at hr h3 <;>
      first | rfl | omega
  · cases cpc <;> simp only [ComputePc.remaining, ComputePc.busy] at hcm h10 <;>
      first | rfl | omega
  · cases wpc <;> simp only [WriterPc.remaining, WriterPc.busy] at hwr h16 <;>
      first | rfl | omega

theorem run_complete_iff {α : Type} {hw : Sfpu α} {N bits src dst : Nat} (hN : N < UINT32)
    {b : Boot α} (sched : List Kernel) {s : State α}
    (h : run hw (SetRuntimeArgs N bits src dst) sched (launch b) = some s) :
    sched.length ≤ 24 * N + 4 ∧ (s.all_done ↔ sched.length = 24 * N + 4) := by
  have hlen := run_length hN sched Reachable.launch h
  rw [remaining_launch] at hlen
  have hc := reachable_ctl hN (reachable_run sched h)
  refine ⟨by omega, ?_, ?_⟩
  · intro hd
    have := all_done_remaining (N := N) hd
    omega
  · intro hl
    exact remaining_zero_done hc (by omega)

theorem compare_loop_spec {B F : Type} (fl : HostFloat B F) (src_vec result_vec : List B)
    (hlen : result_vec.length ≤ src_vec.length) (h32 : result_vec.length < UINT32) :
    ∀ (fuel i : Nat) (v : Verdict F), i ≤ result_vec.length → result_vec.length - i < fuel →
      main.compare_loop fl src_vec result_vec fuel i v =
        some
          { pass := v.pass &&
              ((List.range' i (result_vec.length - i)).filterMap
                (main.report fl src_vec result_vec)).isEmpty
            stderr := v.stderr ++
              (List.range' i (result_vec.length - i)).filterMap
                (main.report fl src_vec result_vec)
            visited := v.visited ++ List.range' i (result_vec.length - i) } := by
  intro fuel
  induction fuel with
  | zero => intro i v _ h; omega
  | succ fuel ih =>
    intro i v hi hf
    rw [main.compare_loop]
    by_cases hlt : i < result_vec.length
    · have hs : i < src_vec.length := by omega
      have hm : (i + 1) % UINT32 = i + 1 := Nat.mod_eq_of_lt (by omega)
      have hr' : result_vec.length - i = (result_vec.length - (i + 1)) + 1 := by omega
      simp only [hlt, if_true, List.getElem?_eq_getElem hs, List.getElem?_eq_getElem hlt, hm]
      rw [ih (i + 1) _ (by omega) (by omega), hr', List.range'_succ]
      have hrep : main.report fl src_vec result_vec i =
          if fl.outside src_vec[i] result_vec[i] then
            some ⟨i, fl.expected src_vec[i], fl.to_float result_vec[i]⟩
          else none := by
        simp only [main.report, List.getElem?_eq_getElem hs, List.getElem?_eq_getElem hlt]
      by_cases ho : fl.outside src_vec[i] result_vec[i] = true
      · simp [hrep, ho, List.filterMap_cons]
      · simp [hrep, ho, List.filterMap_cons]
    · have h0 : result_vec.length - i = 0 := by omega
      simp [hlt, h0]

theorem compare_spec {B F : Type} (fl : HostFloat B F) (src_vec result_vec : List B)
    (hlen : result_vec.length ≤ src_vec.length) (h32 : result_vec.length < UINT32) :
    main.compare fl src_vec result_vec =
      some
        { pass := ((List.range result_vec.length).filterMap
            (main.report fl src_vec result_vec)).isEmpty
          stderr := (List.range result_vec.length).filterMap
            (main.report fl src_vec result_vec)
          visited := List.range result_vec.length } := by
  rw [main.compare, compare_loop_spec fl src_vec result_vec hlen h32 _ 0 _ (Nat.zero_le _)
    (by omega)]
  simp [List.range_eq_range']

theorem report_none_iff {B F : Type} (fl : HostFloat B F) (src_vec result_vec : List B) :
    (∀ i, i < result_vec.length → main.report fl src_vec result_vec i = none) ↔
      main.all_within fl src_vec result_vec := by
  constructor
  · intro h i x r hx hr
    have hi : i < result_vec.length := by
      rcases List.getElem?_eq_some_iff.mp hr with ⟨hi, _⟩
      exact hi
    have := h i hi
    simp only [main.report, hx, hr] at this
    by_cases ho : fl.outside x r = true
    · simp [ho] at this
    · simpa using ho
  · intro h i _
    simp only [main.report]
    cases hx : src_vec[i]? with
    | none => rfl
    | some x =>
      cases hr : result_vec[i]? with
      | none => rfl
      | some r => simp [h i x r hx hr]

theorem stderr_empty_iff {B F : Type} (fl : HostFloat B F) (src_vec result_vec : List B) :
    ((List.range result_vec.length).filterMap (main.report fl src_vec result_vec)).isEmpty
        = true ↔
      main.all_within fl src_vec result_vec := by
  rw [← report_none_iff, List.isEmpty_iff, List.filterMap_eq_nil_iff]
  simp [List.mem_range]

theorem sfpu_result_covered {α : Type} (hw : Sfpu α) (bits : Nat) (x : α) {e : Nat}
    (hl : TILE_HW ≤ vectors_per_tile * hw.lanes) (he : e < TILE_HW) :
    sfpu_result hw bits x e = hw.vadd x (hw.bit_cast bits) := by
  have h : e < vectors_per_tile * hw.lanes := by omega
  simp [sfpu_result, h]

/-- C1: for every tile count `N`, scalar pattern and source tensor, the three kernels bound
to the same `N` can always be run to completion, every interleaving reaches completion
after exactly `24 * N + 4` steps, and every state in which all three have returned has
`destination[i][e] = source[i][e] + scalar` for every tile `i < N` and every element `e`
of the tile, the addition being the SFPU lane addition of the model. -/
theorem pipeline_adds_scalar {α : Type} (hw : Sfpu α) (N bits src dst : Nat) (b : Boot α)
    (hN : N < UINT32) (hsd : src ≠ dst) (hl : TILE_HW ≤ vectors_per_tile * hw.lanes) :
    (∃ sched s, run hw (SetRuntimeArgs N bits src dst) sched (launch b) = some s ∧
        s.all_done) ∧
      (∀ sched s, run hw (SetRuntimeArgs N bits src dst) sched (launch b) = some s →
        sched.length ≤ 24 * N + 4 ∧ (s.all_done ↔ sched.length = 24 * N + 4)) ∧
      ∀ s, Reachable hw (SetRuntimeArgs N bits src dst) b s → s.all_done →
        ∀ i, i < N → ∀ e, e < TILE_HW →
          s.dram dst i e = hw.vadd (b.dram src i e) (hw.bit_cast bits) := by
  refine ⟨exists_complete_from hN _ (launch b) Reachable.launch rfl,
    fun sched s h => run_complete_iff hN sched h, ?_⟩
  intro s hr hdone i hi e he
  have hc := reachable_ctl hN hr
  have hd := reachable_dat hN hsd hr
  have hw' : s.writer.i = N := hc.w_done hdone.2.2
  rw [hd.d_dst i (by omega) e he, sfpu_result_covered hw bits _ hl he]

/-- C1 at one tile: after the reader, the compute kernel and the writer have each run to
their end, element 5 of destination tile 0 is the source value 5 plus the scalar 7. -/
theorem pipeline_adds_scalar_witness :
    (demo_state (demo_args 1) demo_full_schedule).dram 131072 0 5 = 5 + 7 :=
  (pipeline_adds_scalar demo_hw 1 7 0 131072 demo_boot (by decide) (by decide)
    (by decide)).2.2 (demo_state (demo_args 1) demo_full_schedule)
    (reachable_run demo_full_schedule rfl) ⟨rfl, rfl, rfl⟩ 0 (by decide) 5 (by decide)

/-- C2: in every reachable state either all three kernels have returned or some kernel
can step; in particular the reader waiting in `cb_reserve_back` on a full `c_0` and the
writer waiting in `cb_wait_front` on an empty `c_16` never meet a compute kernel that
cannot step. -/
theorem no_deadlock {α : Type} (hw : Sfpu α) (N bits src dst : Nat) (b : Boot α)
    (hN : N < UINT32) (s : State α)
    (hr : Reachable hw (SetRuntimeArgs N bits src dst) b s) :
    (s.all_done ∨ ∃ k, s.enabled hw (SetRuntimeArgs N bits src dst) k) ∧
      ¬ (s.reader.pc = .reserve_back ∧ cb_reserve_back s.cb_in0 1 = false ∧
          s.writer.pc = .wait_front ∧ cb_wait_front s.cb_out0 1 = false ∧
          step hw (SetRuntimeArgs N bits src dst) .compute s = none) := by
  have hc := reachable_ctl hN hr
  constructor
  · by_cases hd : s.all_done
    · exact Or.inl hd
    · obtain ⟨k, t, hk⟩ := exists_step hw (SetRuntimeArgs N bits src dst) hc hd
      exact Or.inr ⟨k, by simp [State.enabled, hk]⟩
  · rintro ⟨hrp, hrb, hwp, hwb, hcb⟩
    have hcm := compute_blocked hcb
    obtain ⟨h1, h2, h3, h4, h5, h6, h7, h8, h9, h10, h11, h12, h13, h14, h15, h16, h17, h18,
      h19, h20⟩ := hc
    simp only [cb_reserve_back, cb_wait_front, decide_eq_false_iff_not, h1, h2] at hrb hwb
    rw [h2] at hcm
    clear h8 h9 h19 h20 h1 h2 hcb
    rcases hcm with hcm | ⟨hcm, hcm'⟩ | ⟨hcm, hcm'⟩ <;>
      simp only [hrp, hwp, hcm, ReaderPc.busy, ReaderPc.holds, WriterPc.busy, WriterPc.front,
        ComputePc.busy, ComputePc.front, ComputePc.popped, ComputePc.holds, forall_const,
        reduceCtorEq, false_implies] at * <;>
      omega

/-- C2 with the arguments `main` binds (`N = 64`): once the reader has filled both slots
of `c_0` and waits for a third, the pipeline is not finished and some kernel can step. -/
theorem no_deadlock_witness :
    (demo_state demo_main_args demo_reader_schedule).all_done ∨
      ∃ k, (demo_state demo_main_args demo_reader_schedule).enabled demo_hw
        demo_main_args k :=
  (no_deadlock demo_hw main.n_tiles main.scalar_bits 0 131072 demo_boot (by decide)
    (demo_state demo_main_args demo_reader_schedule)
    (reachable_run demo_reader_schedule rfl)).1

/-- C3: in every reachable state both circular buffers have the two tile-sized pages
`main` configures (total size `cb_tiles * tile_size_bytes`, page size
`tile_size_bytes`), and the occupancy of each lies between 0 and that depth. -/
theorem occupancy_bounded {α : Type} (hw : Sfpu α) (N bits src dst : Nat) (b : Boot α)
    (hN : N < UINT32) (s : State α)
    (hr : Reachable hw (SetRuntimeArgs N bits src dst) b s) :
    main.cb_total_size / main.cb_page_size = main.cb_tiles ∧ main.cb_tiles = 2 ∧
      s.cb_in0.num_pages = main.cb_tiles ∧ s.cb_out0.num_pages = main.cb_tiles ∧
      0 ≤ s.cb_in0.occupancy ∧ s.cb_in0.occupancy ≤ main.cb_tiles ∧
      0 ≤ s.cb_out0.occupancy ∧ s.cb_out0.occupancy ≤ main.cb_tiles := by
  have hc := reachable_ctl hN hr
  have h1 := hc.c_wait
  have h2 := hc.r_res
  have h3 := hc.w_wait
  have h4 := hc.c_res
  have ht : main.cb_tiles = 2 := rfl
  refine ⟨by decide, rfl, hc.np_in, hc.np_out, ?_, ?_, ?_, ?_⟩ <;>
    simp only [CircularBuffer.occupancy, ht] <;> omega

/-- C3 with the reader waiting for a third slot: `c_0` holds exactly its two pages. -/
theorem occupancy_bounded_witness :
    (demo_state demo_main_args demo_reader_schedule).cb_in0.occupancy ≤ main.cb_tiles :=
  (occupancy_bounded demo_hw main.n_tiles main.scalar_bits 0 131072 demo_boot (by decide)
    (demo_state demo_main_args demo_reader_schedule)
    (reachable_run demo_reader_schedule rfl)).2.2.2.2.2.1

theorem occupied_kept {α : Type} {hw : Sfpu α} {N bits src dst : Nat}
    {s s' : State α} {k : Kernel} (h : Ctl N src dst s)
    (hs : step hw (SetRuntimeArgs N bits src dst) k s = some s') :
    (∀ p, s.cb_in0.occupied p → s'.cb_in0.pages p = s.cb_in0.pages p) ∧
      (∀ p, s.cb_out0.occupied p → s'.cb_out0.pages p = s.cb_out0.pages p) := by
  rcases s with ⟨dram, ⟨np1, pg1, rc1, ak1⟩, ⟨np2, pg2, rc2, ak2⟩, ⟨rpc, ri, raddr, rnoc⟩,
    ⟨cpc, ci, creg⟩, ⟨wpc, wi, waddr, wnoc⟩, fetched, trace⟩
  obtain ⟨h1, h2, h3, h4, h5, h6, h7, h8, h9, h10, h11, h12, h13, h14, h15, h16, h17, h18,
    h19, h20⟩ := h
  simp only at h1 h2 h3 h4 h5 h6 h7 h8 h9 h10 h11 h12 h13 h14 h15 h16 h17 h18 h19 h20
  subst h1 h2
  subst rc1 ak1 rc2 ak2
  rw [h9, h20] at hs
  clear h9 h20
  cases k
  · cases rpc <;>
      simp [step, kReaderKernel.kernel_main, SetRuntimeArgs, get_arg_val, cb_reserve_back,
        cb_push_back, get_write_ptr, noc_async_read_tile, noc_async_read_barrier, UINT32,
        CircularBuffer.store, ReaderPc.busy, ReaderPc.holds, ReaderPc.has_ptr,
        outstanding] at hs h3 h4 h7 h8 <;>
      first
        | (obtain ⟨hc, rfl⟩ := hs)
        | (split at hs <;> simp only [Option.some.injEq] at hs <;> subst hs)
    all_goals
      constructor <;> intro p hp <;> first | rfl | skip
    obtain ⟨k, hk1, hk2, hk3⟩ := hp
    simp only at hk1 hk2 hk3
    have hne : p ≠ raddr := by omega
    simp only [hne, if_false]
  · cases cpc <;>
      simp [step, kComputeKernel.MAIN, SetRuntimeArgs, get_arg_val, cb_reserve_back,
        cb_wait_front, cb_pop_front, cb_push_back, get_write_ptr, pack_tile, UINT32,
        CircularBuffer.store, ComputePc.busy, ComputePc.holds, ComputePc.front,
        ComputePc.popped] at hs h7 h10 h11 h12 h15 <;>
      first
        | (obtain ⟨hc, rfl⟩ := hs)
        | (split at hs <;> simp only [Option.some.injEq] at hs <;> subst hs)
    all_goals
      constructor <;> intro p hp <;> first | rfl | skip
    obtain ⟨k, hk1, hk2, hk3⟩ := hp
    simp only at hk1 hk2 hk3
    have hne : p ≠ ci % 2 := by omega
    simp only [hne, if_false]
  · cases wpc <;>
      simp [step, kWriterKernel.kernel_main, SetRuntimeArgs, get_arg_val, cb_wait_front,
        cb_pop_front, get_read_ptr, noc_async_write_tile, noc_async_write_barrier, UINT32,
        WriterPc.busy, WriterPc.front, WriterPc.has_ptr, outstanding] at hs h16 h17 h18 h19 <;>
      first
        | (obtain ⟨hc, rfl⟩ := hs)
        | (split at hs <;> simp only [Option.some.injEq] at hs <;> subst hs)
    all_goals
      constructor <;> intro p hp <;> rfl

/-- C4: in every reachable state, the slot the reader's NoC read targets and the slot
the compute kernel packs into are reserved and free, the slot `copy_tile` stages from
and the slot the writer's NoC write reads are pushed and not yet popped, and no step of
any kernel changes the content of a slot that is pushed and not yet popped. -/
theorem slots_respected {α : Type} (hw : Sfpu α) (N bits src dst : Nat) (b : Boot α)
    (hN : N < UINT32) (s : State α)
    (hr : Reachable hw (SetRuntimeArgs N bits src dst) b s) :
    (s.reader.pc = .read_tile ∨ s.reader.pc = .read_barrier →
        cb_reserve_back s.cb_in0 1 = true ∧ s.reader.cb_in0_addr = get_write_ptr s.cb_in0 ∧
          ¬ s.cb_in0.occupied s.reader.cb_in0_addr) ∧
      (s.compute.pc = .pack_tile →
        cb_reserve_back s.cb_out0 1 = true ∧ ¬ s.cb_out0.occupied (get_write_ptr s.cb_out0)) ∧
      (s.compute.pc = .copy_tile →
        cb_wait_front s.cb_in0 1 = true ∧ s.cb_in0.occupied (get_read_ptr s.cb_in0)) ∧
      (s.writer.pc = .write_tile ∨ s.writer.pc = .write_barrier →
        cb_wait_front s.cb_out0 1 = true ∧ s.writer.cb_out0_addr = get_read_ptr s.cb_out0 ∧
          s.cb_out0.occupied s.writer.cb_out0_addr) ∧
      ∀ k s', step hw (SetRuntimeArgs N bits src dst) k s = some s' →
        (∀ p, s.cb_in0.occupied p → s'.cb_in0.pages p = s.cb_in0.pages p) ∧
          (∀ p, s.cb_out0.occupied p → s'.cb_out0.pages p = s.cb_out0.pages p) := by
  have hc := reachable_ctl hN hr
  refine ⟨?_, ?_, ?_, ?_, fun k s' hs => occupied_kept hc hs⟩
  · intro hpc
    have h1 := hc.r_res
    have h2 := hc.r_ptr
    have h3 := hc.in_recv
    have h4 := hc.np_in
    have hh : s.reader.pc.holds = 1 ∧ s.reader.pc.has_ptr = true := by
      rcases hpc with hpc | hpc <;> simp [hpc, ReaderPc.holds, ReaderPc.has_ptr]
    rw [hh.1] at h1
    have h2' := h2 hh.2
    refine ⟨by simp only [cb_reserve_back, h4, decide_eq_true_eq]; omega,
      by simp only [get_write_ptr, h4, h3, h2'], ?_⟩
    rintro ⟨k, hk1, hk2, hk3⟩
    rw [h4] at hk3
    omega
  · intro hpc
    have h1 := hc.c_res
    have h4 := hc.np_out
    rw [hpc] at h1
    simp only [ComputePc.holds] at h1
    refine ⟨by simp only [cb_reserve_back, h4, decide_eq_true_eq]; omega, ?_⟩
    rintro ⟨k, hk1, hk2, hk3⟩
    simp only [get_write_ptr, h4] at hk3
    omega
  · intro hpc
    have h1 := hc.c_wait
    rw [hpc] at h1
    simp only [ComputePc.front] at h1
    exact ⟨by simp only [cb_wait_front, decide_eq_true_eq]; omega,
      s.cb_in0.acked, Nat.le_refl _, by omega, rfl⟩
  · intro hpc
    have h1 := hc.w_wait
    have h2 := hc.w_ptr
    have h3 := hc.out_ack
    have h4 := hc.np_out
    have hh : s.writer.pc.front = 1 ∧ s.writer.pc.has_ptr = true := by
      rcases hpc with hpc | hpc <;> simp [hpc, WriterPc.front, WriterPc.has_ptr]
    rw [hh.1] at h1
    have h2' := h2 hh.2
    refine ⟨by simp only [cb_wait_front, decide_eq_true_eq]; omega,
      by simp only [get_read_ptr, h4, h3, h2'], ?_⟩
    exact ⟨s.cb_out0.acked, Nat.le_refl _, by omega, by rw [h4, h3, h2']⟩

/-- C4 with the reader at its first read barrier: the slot its NoC read targets is the
reserved write slot of `c_0` and holds no pushed page. -/
theorem slots_respected_witness :
    cb_reserve_back (demo_state demo_main_args demo_reading_schedule).cb_in0 1 = true ∧
      (demo_state demo_main_args demo_reading_schedule).reader.cb_in0_addr =
        get_write_ptr (demo_state demo_main_args demo_reading_schedule).cb_in0 ∧
      ¬ (demo_state demo_main_args demo_reading_schedule).cb_in0.occupied
        (demo_state demo_main_args demo_reading_schedule).reader.cb_in0_addr :=
  (slots_respected demo_hw main.n_tiles main.scalar_bits 0 131072 demo_boot (by decide)
    (demo_state demo_main_args demo_reading_schedule)
    (reachable_run demo_reading_schedule rfl)).1
    (Or.inr rfl)

theorem writer_trace_length (n : Nat) : (writer_trace n).length = 2 * n := by
  induction n with
  | zero => rfl
  | succ n ih => simp [writer_trace, ih]; omega

theorem writer_trace_getElem? (n p : Nat) :
    (writer_trace n)[p]? =
      if p < 2 * n then
        some (if p % 2 = 0 then WriteEvent.issued (p / 2) else WriteEvent.completed (p / 2))
      else none := by
  induction n with
  | zero => simp [writer_trace]
  | succ n ih =>
    rw [writer_trace]
    by_cases h1 : p < 2 * n
    · have h2 : p < 2 * (n + 1) := by omega
      rw [List.getElem?_append_left (by rw [writer_trace_length]; exact h1), ih]
      simp [h1, h2]
    · rw [List.getElem?_append_right (by rw [writer_trace_length]; omega),
        writer_trace_length]
      by_cases h3 : p = 2 * n
      · subst h3
        simp
      · by_cases h4 : p = 2 * n + 1
        · subst h4
          have h5 : (2 * n + 1) % 2 = 1 := by omega
          have h6 : (2 * n + 1) / 2 = n := by omega
          have h7 : 2 * n + 1 < 2 * (n + 1) := by omega
          simp [h5, h6, h7]
        · have h8 : ¬ p < 2 * (n + 1) := by omega
          have h9 : p - 2 * n = (p - 2 * n - 2) + 2 := by omega
          rw [h9]
          simp [h8]

theorem writer_trace_order (n : Nat) (t rest : List WriteEvent)
    (ht : t ++ rest = writer_trace n) (pre post : List WriteEvent) (j : Nat)
    (h : t = pre ++ WriteEvent.issued j :: post) (i : Nat) (hij : i < j) :
    WriteEvent.completed i ∈ pre := by
  have hT : writer_trace n = pre ++ (WriteEvent.issued j :: (post ++ rest)) := by
    rw [← ht, h]; simp
  have hget : (writer_trace n)[pre.length]? = some (WriteEvent.issued j) := by
    rw [hT, List.getElem?_append_right (Nat.le_refl _), Nat.sub_self]
    simp
  rw [writer_trace_getElem?] at hget
  by_cases hlt : pre.length < 2 * n
  · simp only [hlt, if_true, Option.some.injEq] at hget
    by_cases hpar : pre.length % 2 = 0
    · simp only [hpar, if_true, WriteEvent.issued.injEq] at hget
      have hpos : 2 * i + 1 < pre.length := by omega
      have hget2 : (writer_trace n)[2 * i + 1]? = some (WriteEvent.completed i) := by
        rw [writer_trace_getElem?]
        have h5 : (2 * i + 1) % 2 = 1 := by omega
        have h6 : (2 * i + 1) / 2 = i := by omega
        have h7 : 2 * i + 1 < 2 * n := by omega
        simp [h5, h6, h7]
      rw [hT, List.getElem?_append_left hpos] at hget2
      exact List.getElem?_mem hget2
    · simp [hpar] at hget
  · simp [hlt] at hget

theorem completed_mem_writer_trace (n i : Nat) :
    WriteEvent.completed i ∈ writer_trace n ↔ i < n := by
  induction n with
  | zero => simp [writer_trace]
  | succ n ih =>
    simp only [writer_trace, List.mem_append, ih, List.mem_cons, reduceCtorEq,
      WriteEvent.completed.injEq, List.mem_singleton, false_or, List.not_mem_nil, or_false]
    omega

theorem filterMap_issued_writer_trace (n : Nat) :
    (writer_trace n).filterMap WriteEvent.issued_index = List.range n := by
  induction n with
  | zero => rfl
  | succ n ih =>
    simp [writer_trace, List.filterMap_append, ih, WriteEvent.issued_index, List.range_succ]

theorem filterMap_completed_writer_trace (n : Nat) :
    (writer_trace n).filterMap WriteEvent.completed_index = List.range n := by
  induction n with
  | zero => rfl
  | succ n ih =>
    simp [writer_trace, List.filterMap_append, ih, WriteEvent.completed_index,
      List.range_succ]

theorem events_extend (pc : WriterPc) (i : Nat) :
    ∃ rest, (writer_trace i ++ pc.events i) ++ rest = writer_trace (i + 1) := by
  cases pc
  case write_barrier => exact ⟨[WriteEvent.completed i], by simp [WriterPc.events, writer_trace]⟩
  case pop_front => exact ⟨[], by simp [WriterPc.events, writer_trace]⟩
  all_goals
    exact ⟨[WriteEvent.issued i, WriteEvent.completed i], by simp [WriterPc.events, writer_trace]⟩

theorem events_indices (pc : WriterPc) (i : Nat) :
    ∃ a c, (writer_trace i ++ pc.events i).filterMap WriteEvent.issued_index = List.range a ∧
      (writer_trace i ++ pc.events i).filterMap WriteEvent.completed_index = List.range c ∧
      c ≤ a ∧ a ≤ c + 1 ∧ a ≤ i + pc.busy ∧ c = i + pc.written := by
  cases pc
  case write_barrier =>
    exact ⟨i + 1, i, by
      simp [WriterPc.events, List.filterMap_append, filterMap_issued_writer_trace,
        filterMap_completed_writer_trace, WriteEvent.issued_index, WriteEvent.completed_index,
        List.range_succ, WriterPc.busy, WriterPc.written]⟩
  case pop_front =>
    exact ⟨i + 1, i + 1, by
      simp [WriterPc.events, List.filterMap_append, filterMap_issued_writer_trace,
        filterMap_completed_writer_trace, WriteEvent.issued_index, WriteEvent.completed_index,
        List.range_succ, WriterPc.busy, WriterPc.written]⟩
  all_goals
    exact ⟨i, i, by
      simp [WriterPc.events, filterMap_issued_writer_trace,
        filterMap_completed_writer_trace, WriterPc.busy, WriterPc.written]⟩

theorem completed_mem_events (pc : WriterPc) (i k : Nat) :
    WriteEvent.completed k ∈ writer_trace i ++ pc.events i ↔ k < i + pc.written := by
  rw [List.mem_append, completed_mem_writer_trace]
  cases pc <;> simp [WriterPc.events, WriterPc.written]
  omega

/-- C5: in every reachable state the writer's events are in strictly increasing tile
order: the write of tile `i` has completed (its barrier has returned) before the write
of any tile `j > i` is issued, at most one write is in flight, and the tile that has
been written at destination index `i` is what the compute kernel makes of the `i`-th
tile the reader fetched, which is source tile `i`. -/
theorem writes_in_order {α : Type} (hw : Sfpu α) (N bits src dst : Nat) (b : Boot α)
    (hN : N < UINT32) (hsd : src ≠ dst) (s : State α)
    (hr : Reachable hw (SetRuntimeArgs N bits src dst) b s) :
    (∀ pre post j, s.trace = pre ++ WriteEvent.issued j :: post →
        ∀ i, i < j → WriteEvent.completed i ∈ pre) ∧
      (∃ a c, s.trace.filterMap WriteEvent.issued_index = List.range a ∧
        s.trace.filterMap WriteEvent.completed_index = List.range c ∧
        c ≤ a ∧ a ≤ c + 1 ∧ a ≤ N) ∧
      ∀ i, WriteEvent.completed i ∈ s.trace →
        ∃ k, s.fetched[i]? = some k ∧ k = i ∧
          ∀ e, e < TILE_HW → s.dram dst i e = sfpu_result hw bits (b.dram src k e) e := by
  have hc := reachable_ctl hN hr
  have hd := reachable_dat hN hsd hr
  have hh := reachable_hist hN hr
  refine ⟨?_, ?_, ?_⟩
  · obtain ⟨rest, hrest⟩ := events_extend s.writer.pc s.writer.i
    rw [← hh.h_trace] at hrest
    exact fun pre post j h i hij => writer_trace_order _ s.trace rest hrest pre post j h i hij
  · obtain ⟨a, c, ha, hcc, h1, h2, h3, _⟩ := events_indices s.writer.pc s.writer.i
    rw [← hh.h_trace] at ha hcc
    have h4 := hc.w_i
    exact ⟨a, c, ha, hcc, h1, h2, by omega⟩
  · intro i hi
    rw [hh.h_trace, completed_mem_events] at hi
    have h1 := hc.w_wait
    have h2 := hc.out_ack
    have h3 := hc.out_recv
    have h4 := hc.in_ack
    have h5 := hc.c_wait
    have h6 := hc.in_recv
    have h7 : s.writer.pc.written ≤ s.writer.pc.front := by
      cases s.writer.pc <;> simp [WriterPc.written, WriterPc.front]
    refine ⟨i, ?_, rfl, hd.d_dst i hi⟩
    rw [hh.h_fetched]
    exact List.getElem?_range (by omega)

/-- C5 after one tile has gone through: the only completed write is that of tile 0, and
it carries the first tile the reader fetched. -/
theorem writes_in_order_witness :
    ∃ k, (demo_state (demo_args 1) demo_full_schedule).fetched[0]? = some k ∧ k = 0 ∧
      ∀ e, e < TILE_HW → (demo_state (demo_args 1) demo_full_schedule).dram 131072 0 e =
        sfpu_result demo_hw 7 (demo_boot.dram 0 k e) e :=
  (writes_in_order demo_hw 1 7 0 131072 demo_boot (by decide) (by decide)
    (demo_state (demo_args 1) demo_full_schedule) (reachable_run demo_full_schedule rfl)).2.2 0
    (by decide)

/-- C9: whenever the compute kernel is at its `TRISC_MATH` block the step is enabled, and
with `vectors_per_tile = 32` vectors covering the `TILE_WIDTH * TILE_HEIGHT = 1024`
elements of a tile it replaces every element `x` of the staged tile by `x + scalar`,
where `scalar` is the float whose bit pattern is the second runtime argument the host
set, and leaves the registers beyond the tile alone; counting updates (start from 0,
add 1) gives exactly one update per element. -/
theorem sfpu_adds_scalar_to_tile {α : Type} (hw : Sfpu α) (N bits src dst : Nat)
    (s : State α) (hpc : s.compute.pc = .sfpu)
    (hl : vectors_per_tile * hw.lanes = TILE_WIDTH * TILE_HEIGHT) :
    vectors_per_tile = 32 ∧ TILE_WIDTH * TILE_HEIGHT = 1024 ∧
      get_arg_val (SetRuntimeArgs N bits src dst).compute 1 = bits ∧
      (∃ s', step hw (SetRuntimeArgs N bits src dst) .compute s = some s' ∧
        (∀ e, e < TILE_WIDTH * TILE_HEIGHT →
          s'.compute.dst_reg e = hw.vadd (s.compute.dst_reg e) (hw.bit_cast bits)) ∧
        (∀ e, TILE_WIDTH * TILE_HEIGHT ≤ e → s'.compute.dst_reg e = s.compute.dst_reg e)) ∧
      ∀ e, e < TILE_WIDTH * TILE_HEIGHT →
        sfpu_block { lanes := hw.lanes, vadd := fun x y => x + y, bit_cast := fun u => u } 1
          (fun _ => 0) e = 1 := by
  refine ⟨rfl, rfl, rfl, ⟨_, by simp only [step, kComputeKernel.MAIN, hpc]; rfl, ?_, ?_⟩, ?_⟩
  · intro e he
    have h : e < vectors_per_tile * hw.lanes := by omega
    simp [SetRuntimeArgs, get_arg_val, sfpu_block_apply, sfpu_result, h]
  · intro e he
    have h : ¬ e < vectors_per_tile * hw.lanes := by omega
    simp [SetRuntimeArgs, get_arg_val, sfpu_block_apply, sfpu_result, h]
  · intro e he
    have h : e < vectors_per_tile * hw.lanes := by omega
    simp [sfpu_block_apply, sfpu_result, h]

/-- C9 on a 32-lane engine: the block is enabled in a state whose compute kernel has just
staged a tile. -/
theorem sfpu_adds_scalar_to_tile_witness :
    ∃ s', step demo_hw (demo_args 1) .compute
        (demo_state (demo_args 1) demo_staged_schedule) = some s' ∧
      (∀ e, e < TILE_WIDTH * TILE_HEIGHT → s'.compute.dst_reg e =
        (demo_state (demo_args 1) demo_staged_schedule).compute.dst_reg e + 7) ∧
      ∀ e, TILE_WIDTH * TILE_HEIGHT ≤ e → s'.compute.dst_reg e =
        (demo_state (demo_args 1) demo_staged_schedule).compute.dst_reg e :=
  (sfpu_adds_scalar_to_tile demo_hw 1 7 0 131072
    (demo_state (demo_args 1) demo_staged_schedule) rfl
    (by decide)).2.2.2.1

theorem idle_step {α : Type} {hw : Sfpu α} {args : RuntimeArgs} {k : Kernel}
    {s s' : State α} (hr : s.reader.pc.busy = 0) (hcm : s.compute.pc.busy = 0)
    (hwr : s.writer.pc.busy = 0) (hs : step hw args k s = some s') :
    s'.dram = s.dram ∧ s'.cb_in0 = s.cb_in0 ∧ s'.cb_out0 = s.cb_out0 ∧
      s'.trace = s.trace ∧ s'.fetched = s.fetched := by
  rcases s with ⟨dram, A, B, ⟨rpc, ri, raddr, rnoc⟩, ⟨cpc, ci, creg⟩, ⟨wpc, wi, waddr, wnoc⟩,
    fetched, trace⟩
  simp only at hr hcm hwr
  cases k
  · cases rpc <;> simp [ReaderPc.busy] at hr <;>
      simp [step, kReaderKernel.kernel_main] at hs
    split at hs <;> simp only [Option.some.injEq] at hs <;> subst hs <;> simp
  · cases cpc <;> simp [ComputePc.busy] at hcm <;>
      simp [step, kComputeKernel.MAIN] at hs
    · subst hs; simp
    · split at hs <;> simp only [Option.some.injEq] at hs <;> subst hs <;> simp
  · cases wpc <;> simp [WriterPc.busy] at hwr <;>
      simp [step, kWriterKernel.kernel_main] at hs
    split at hs <;> simp only [Option.some.injEq] at hs <;> subst hs <;> simp

theorem reader_idle {pc : ReaderPc} (h : pc.busy = 0) : pc = .loop_head ∨ pc = .done := by
  cases pc <;> simp [ReaderPc.busy] at h ⊢

theorem writer_idle {pc : WriterPc} (h : pc.busy = 0) : pc = .loop_head ∨ pc = .done := by
  cases pc <;> simp [WriterPc.busy] at h ⊢

theorem compute_idle {pc : ComputePc} (h : pc.busy = 0) :
    pc = .init_sfpu ∨ pc = .loop_head ∨ pc = .done := by
  cases pc <;> simp [ComputePc.busy] at h ⊢

theorem empty_frame {α : Type} {hw : Sfpu α} {bits src dst : Nat} {b : Boot α}
    {s : State α} (h : Reachable hw (SetRuntimeArgs 0 bits src dst) b s) :
    s.dram = b.dram ∧ s.cb_in0 = (launch b).cb_in0 ∧ s.cb_out0 = (launch b).cb_out0 ∧
      s.trace = [] ∧ s.fetched = [] := by
  induction h with
  | launch => exact ⟨rfl, rfl, rfl, rfl, rfl⟩
  | step k hr hs ih =>
    have h0 : (0 : Nat) < UINT32 := by decide
    have hc := reachable_ctl h0 hr
    have h1 := hc.r_i
    have h2 := hc.c_i
    have h3 := hc.w_i
    obtain ⟨e1, e2, e3, e4, e5⟩ := idle_step (by omega) (by omega) (by omega) hs
    obtain ⟨i1, i2, i3, i4, i5⟩ := ih
    exact ⟨e1.trans i1, e2.trans i2, e3.trans i3, e4.trans i4, e5.trans i5⟩

/-- C6: with tile count 0 every kernel goes from its loop test straight to its end: in
every reachable state each kernel is at its loop head (the compute kernel possibly
still at `init_sfpu`) or has returned, the circular buffers and DRAM are as at launch,
the writer has issued no write, four steps complete the run, and the comparison loop
over the empty read-back reports nothing and leaves `pass` true. -/
theorem empty_run {α B F : Type} (hw : Sfpu α) (bits src dst : Nat) (b : Boot α)
    (fl : HostFloat B F) (src_vec : List B) (s : State α)
    (hr : Reachable hw (SetRuntimeArgs 0 bits src dst) b s) :
    ((s.reader.pc = .loop_head ∨ s.reader.pc = .done) ∧
      (s.compute.pc = .init_sfpu ∨ s.compute.pc = .loop_head ∨ s.compute.pc = .done) ∧
      (s.writer.pc = .loop_head ∨ s.writer.pc = .done) ∧
      s.cb_in0 = (launch b).cb_in0 ∧ s.cb_out0 = (launch b).cb_out0 ∧
      s.cb_in0.received = 0 ∧ s.cb_in0.acked = 0 ∧
      s.cb_out0.received = 0 ∧ s.cb_out0.acked = 0 ∧
      s.dram = b.dram ∧ s.trace = [] ∧ s.fetched = [] ∧
      s.reader.noc = [] ∧ s.writer.noc = []) ∧
    (∃ t, run hw (SetRuntimeArgs 0 bits src dst)
        [Kernel.reader, Kernel.compute, Kernel.compute, Kernel.writer] (launch b) = some t ∧
      t.all_done) ∧
    main.result_vec_size 0 = 0 ∧
    main.compare fl src_vec [] = some { pass := true, stderr := [], visited := [] } ∧
    main.verify fl src_vec [] (some true) = some { stderr := [], exit := Exit.test_passed } := by
  have h0 : (0 : Nat) < UINT32 := by decide
  have hc := reachable_ctl h0 hr
  obtain ⟨e1, e2, e3, e4, e5⟩ := empty_frame hr
  have h1 := hc.r_i
  have h2 := hc.c_i
  have h3 := hc.w_i
  have hrb : s.reader.pc.busy = 0 := by omega
  have hcb : s.compute.pc.busy = 0 := by omega
  have hwb : s.writer.pc.busy = 0 := by omega
  have hrn := hc.r_noc
  have hwn := hc.w_noc
  refine ⟨⟨reader_idle hrb, compute_idle hcb, writer_idle hwb, e2, e3, by rw [e2]; rfl,
    by rw [e2]; rfl, by rw [e3]; rfl, by rw [e3]; rfl, e1, e4, e5, ?_, ?_⟩,
    ⟨_, rfl, rfl, rfl, rfl⟩, rfl, rfl, rfl⟩
  · rcases reader_idle hrb with h | h <;> simpa [h, outstanding] using hrn
  · rcases writer_idle hwb with h | h <;> simpa [h, outstanding] using hwn

/-- C6 on the demo device: after the reader and the compute kernel have left, the writer
is still at its loop head and nothing has been written. -/
theorem empty_run_witness :
    (demo_state (demo_args 0) [Kernel.reader, Kernel.compute, Kernel.compute]).trace = [] :=
  (empty_run demo_hw 7 0 131072 demo_boot centi []
    (demo_state (demo_args 0) [Kernel.reader, Kernel.compute, Kernel.compute])
    (reachable_run [Kernel.reader, Kernel.compute, Kernel.compute] rfl)).1.2.2.2.2.2.2.2.2.2.2.1

theorem report_index {B F : Type} (fl : HostFloat B F) (src_vec result_vec : List B)
    {i : Nat} {m : Mismatch F} (h : main.report fl src_vec result_vec i = some m) :
    m.index = i := by
  simp only [main.report] at h
  cases hx : src_vec[i]? with
  | none => simp [hx] at h
  | some x =>
    cases hr : result_vec[i]? with
    | none => simp [hx, hr] at h
    | some r =>
      simp only [hx, hr] at h
      by_cases ho : fl.outside x r = true
      · simp only [ho, if_true, Option.some.injEq] at h
        rw [← h]
      · simp [ho] at h

theorem report_indices_increasing {B F : Type} (fl : HostFloat B F)
    (src_vec result_vec : List B) (l : List Nat) (hl : l.Pairwise (fun a b => a < b)) :
    ((l.filterMap (main.report fl src_vec result_vec)).map Mismatch.index).Pairwise
      (fun a b => a < b) := by
  induction l with
  | nil => simp
  | cons a l ih =>
    rw [List.pairwise_cons] at hl
    cases hrep : main.report fl src_vec result_vec a with
    | none =>
      rw [List.filterMap_cons_none hrep]
      exact ih hl.2
    | some m =>
      rw [List.filterMap_cons_some hrep, List.map_cons, List.pairwise_cons]
      refine ⟨?_, ih hl.2⟩
      intro x hx
      rw [List.mem_map] at hx
      obtain ⟨m', hm', rfl⟩ := hx
      rw [List.mem_filterMap] at hm'
      obtain ⟨b, hb, hrb⟩ := hm'
      rw [report_index fl src_vec result_vec hrep, report_index fl src_vec result_vec hrb]
      exact hl.1 b hb

theorem report_mem_iff {B F : Type} (fl : HostFloat B F) (src_vec result_vec : List B)
    (m : Mismatch F) :
    m ∈ (List.range result_vec.length).filterMap (main.report fl src_vec result_vec) ↔
      ∃ (i : Nat) (x r : B), src_vec[i]? = some x ∧ result_vec[i]? = some r ∧
        fl.outside x r = true ∧ m = ⟨i, fl.expected x, fl.to_float r⟩ := by
  simp only [List.mem_filterMap, List.mem_range]
  constructor
  · rintro ⟨i, hi, hrep⟩
    simp only [main.report] at hrep
    cases hx : src_vec[i]? with
    | none => simp [hx] at hrep
    | some x =>
      cases hr : result_vec[i]? with
      | none => simp [hx, hr] at hrep
      | some r =>
        simp only [hx, hr] at hrep
        by_cases ho : fl.outside x r = true
        · simp only [ho, if_true, Option.some.injEq] at hrep
          exact ⟨i, x, r, hx, hr, ho, hrep.symm⟩
        · simp [ho] at hrep
  · rintro ⟨i, x, r, hx, hr, ho, rfl⟩
    have hi : i < result_vec.length := (List.getElem?_eq_some_iff.mp hr).1
    exact ⟨i, hi, by simp [main.report, hx, hr, ho]⟩

/-- C7, as the code has it: when the read-back is no longer than the source vector, the
error stream receives the mismatch lines of the elements outside the tolerance, one line
each with index, expected and actual value, in increasing index order and nothing else
from the loop; then `main` ends with `Test Passed` exactly when no compared element is
outside the tolerance and `CloseDevice` returned true, with the thrown `Test Failed`
exactly when `CloseDevice` returned and either returned false or some element is outside
the tolerance, and, when `CloseDevice` throws, with the two lines of the `catch` block
after the mismatch lines and the exception rethrown. -/
theorem verify_outcome {B F : Type} (fl : HostFloat B F) (src_vec result_vec : List B)
    (close_device : Option Bool) (hlen : result_vec.length ≤ src_vec.length)
    (h32 : result_vec.length < UINT32) :
    ∃ (lines : List (Mismatch F)) (o : Outcome F),
      main.verify fl src_vec result_vec close_device = some o ∧
      lines = (List.range result_vec.length).filterMap
        (main.report fl src_vec result_vec) ∧
      (lines.map Mismatch.index).Pairwise (fun a b => a < b) ∧
      (∀ m, m ∈ lines ↔
        ∃ (i : Nat) (x r : B), src_vec[i]? = some x ∧ result_vec[i]? = some r ∧
          fl.outside x r = true ∧ m = ⟨i, fl.expected x, fl.to_float r⟩) ∧
      (lines = [] ↔ main.all_within fl src_vec result_vec) ∧
      o.stderr = lines.map ErrLine.mismatch ++
        (match close_device with
         | some _ => []
         | none => [ErrLine.exception_banner, ErrLine.exception_what]) ∧
      (o.exit = Exit.test_passed ↔
        main.all_within fl src_vec result_vec ∧ close_device = some true) ∧
      (o.exit = Exit.test_failed ↔
        close_device = some false ∨
          (close_device = some true ∧ ¬ main.all_within fl src_vec result_vec)) ∧
      (o.exit = Exit.rethrown ↔ close_device = none) := by
  have hsp := compare_spec fl src_vec result_vec hlen h32
  have hiff := stderr_empty_iff fl src_vec result_vec
  rw [List.isEmpty_iff] at hiff
  refine ⟨_, _, by simp only [main.verify, hsp, Option.map_some']; rfl, rfl,
    report_indices_increasing fl src_vec result_vec _ (List.pairwise_lt_range _),
    report_mem_iff fl src_vec result_vec, hiff, ?_, ?_, ?_, ?_⟩
  · cases close_device with
    | none => rfl
    | some c => simp
  · rw [← hiff]
    cases close_device with
    | none => simp
    | some c =>
      by_cases h1 : (List.range result_vec.length).filterMap
          (main.report fl src_vec result_vec) = [] <;>
        cases c <;> simp [h1, List.isEmpty_iff]
  · rw [← hiff]
    cases close_device with
    | none => simp
    | some c =>
      by_cases h1 : (List.range result_vec.length).filterMap
          (main.report fl src_vec result_vec) = [] <;>
        cases c <;> simp [h1, List.isEmpty_iff]
  · cases close_device with
    | none => simp
    | some c =>
      by_cases h1 : (List.range result_vec.length).filterMap
          (main.report fl src_vec result_vec) = [] <;>
        cases c <;> simp [h1, List.isEmpty_iff]

/-- C7, as the code has it, on a two-element run: sources 0.50 and 0.25, read-backs 1.50
and 2.00, `CloseDevice` returning true. -/
theorem verify_outcome_witness :
    ([150, 200].length ≤ [50, 25].length ∧ [150, 200].length < UINT32) ∧
      ∃ (lines : List (Mismatch Int)) (o : Outcome Int),
        main.verify centi [50, 25] [150, 200] (some true) = some o ∧
        lines = (List.range [150, 200].length).filterMap
          (main.report centi [50, 25] [150, 200]) ∧
        (lines.map Mismatch.index).Pairwise (fun a b => a < b) ∧
        (∀ m, m ∈ lines ↔
          ∃ (i : Nat) (x r : Int), [50, 25][i]? = some x ∧ [150, 200][i]? = some r ∧
            centi.outside x r = true ∧ m = ⟨i, centi.expected x, centi.to_float r⟩) ∧
        (lines = [] ↔ main.all_within centi [50, 25] [150, 200]) ∧
        o.stderr = lines.map ErrLine.mismatch ++
          (match (some true : Option Bool) with
           | some _ => []
           | none => [ErrLine.exception_banner, ErrLine.exception_what]) ∧
        (o.exit = Exit.test_passed ↔
          main.all_within centi [50, 25] [150, 200] ∧ some true = some true) ∧
        (o.exit = Exit.test_failed ↔
          some true = some false ∨
            (some true = some true ∧ ¬ main.all_within centi [50, 25] [150, 200])) ∧
        (o.exit = Exit.rethrown ↔ some true = none) :=
  ⟨⟨by decide, by decide⟩,
    verify_outcome centi [50, 25] [150, 200] (some true) (by decide) (by decide)⟩

/-- C7 as stated fails: with source 0.50 and read-back 1.50 every element is within the
tolerance, yet `main` ends with `Test Failed` when `CloseDevice` returns false; and with
a read-back longer than the source vector the loop reads `src_vec` out of bounds, so
there is no verdict at all. -/
theorem test_failed_within_tolerance :
    main.all_within centi [50] [150] ∧
      (main.verify centi [50] [150] (some false)).map Outcome.exit =
        some Exit.test_failed ∧
      main.verify centi [] [150] (some true) = none := by
  refine ⟨?_, rfl, rfl⟩
  intro i x r hx hr
  cases i with
  | zero =>
    simp only [List.getElem?_cons_zero, Option.some.injEq] at hx hr
    subst hx hr
    decide
  | succ i => simp at hx

/-- C10: when the source vector has the `n_tiles * elements_per_tile` elements `main`
allocates and the read-back has the destination buffer's byte size divided by
`sizeof(bfloat16)` elements, both are 65,536 long, the comparison loop leaves without
reading `src_vec` out of bounds, and it reads the indices `0, …, 65535` once each. -/
theorem compare_in_bounds {B F : Type} (fl : HostFloat B F) (src_vec result_vec : List B)
    (hs : src_vec.length = main.src_vec_size main.n_tiles)
    (hr : result_vec.length = main.result_vec_size main.n_tiles) :
    main.result_vec_size main.n_tiles = main.n_tiles * main.elements_per_tile ∧
      main.n_tiles * main.elements_per_tile = 65536 ∧
      ∃ v, main.compare fl src_vec result_vec = some v ∧
        v.visited = List.range src_vec.length ∧ v.visited.Nodup ∧
        ∀ i, i ∈ v.visited → i < src_vec.length := by
  have e1 : main.src_vec_size main.n_tiles = 65536 := by decide
  have e2 : main.result_vec_size main.n_tiles = 65536 := by decide
  rw [e1] at hs
  rw [e2] at hr
  have hsp := compare_spec fl src_vec result_vec (by omega)
    (by rw [hr]; decide)
  refine ⟨by decide, by decide, _, hsp, ?_, ?_, ?_⟩
  · simp only [hs, hr]
  · exact List.nodup_range _
  · intro i hi
    simp only [List.mem_range] at hi
    omega

/-- C10 on an all-zero source and read-back of 65,536 elements. -/
theorem compare_in_bounds_witness :
    ∃ v, main.compare centi (List.replicate 65536 0) (List.replicate 65536 0) = some v ∧
      v.visited = List.range (List.replicate 65536 (0 : Int)).length ∧ v.visited.Nodup ∧
      ∀ i, i ∈ v.visited → i < (List.replicate 65536 (0 : Int)).length :=
  (compare_in_bounds centi (List.replicate 65536 0) (List.replicate 65536 0)
    (by rw [List.length_replicate]; decide) (by rw [List.length_replicate]; decide)).2.2

end Add1
